import Mathlib

/-!
Euclidean step sequencer: control logic

A shallow embedding of `control.c` / `control.h`.

* `u8` values are natural numbers; every assignment that can leave the range
  `0..255` is written with an explicit `% 256`.
* The globals `preset`, `shared` and `selected_pattern` form the `State`.
* Calls into the hardware interface (`set_gate`, `add_timed_event`,
  `refresh_grid`, `set_grid_led`, `clear_all_grid_leds`) are recorded, in call
  order, in a list of `Effect`s.
* An access outside a fixed-size array, a read past the end of the event
  payload and a remainder by zero are undefined in C; the embedding returns
  `none` there.
* `euclidean` (declared in `euclidean.h`) is a parameter of every function
  that calls it; its result is used as a C truth value (`≠ 0`).
-/

namespace Control

/-! ## Constants (control.h, control.c) -/

abbrev ER_COUNT : Nat := 4
abbrev PATTERN_COUNT : Nat := 16

def GRID_LED_LOW : Nat := 3
def GRID_LED_MEDIUM : Nat := 6
def GRID_LED_HIGH : Nat := 9

def GATE_OFF_TIMER : Nat := 0
def FIXED_GATE_LENGTH : Nat := 5

/-! ## Data model (control.h) -/

inductive ek_button_t where
  | ek_steps
  | ek_fill
  | ek_rotation
  deriving DecidableEq, Repr

structure ek_er_t where
  steps : Nat
  fill : Nat
  rotation : Nat
  index : Nat
  deriving DecidableEq, Repr

structure ek_pattern_t where
  er : Fin ER_COUNT → ek_er_t

structure preset_data_t where
  p : Fin PATTERN_COUNT → ek_pattern_t

structure shared_data_t where
  active_button : Fin ER_COUNT → ek_button_t

/-- The globals of control.c that the handlers read and write. The global
`selected_pattern` is never assigned in control.c; it is kept as an index that
is in range for `preset.p`. -/
structure State where
  preset : preset_data_t
  shared : shared_data_t
  selected_pattern : Fin PATTERN_COUNT

/-- Calls into the hardware interface, in the order they are made. -/
inductive Effect where
  | set_gate (channel : Nat) (level : Nat)
  | add_timed_event (id : Nat) (delay : Nat) (rep : Nat)
  | refresh_grid
  | clear_all_grid_leds
  | set_grid_led (x : Nat) (y : Nat) (brightness : Nat)
  deriving DecidableEq, Repr

/-- Modelled from the spec: the event kinds of `process_event`. The numeric
constants are declared in interface.h, which is not part of the sources; each
`case` label of the `switch` is one constructor and `other` stands for every
value that reaches `default`. -/
inductive event_t where
  | MAIN_CLOCK_RECEIVED
  | MAIN_CLOCK_SWITCHED
  | GATE_RECEIVED
  | GRID_CONNECTED
  | GRID_KEY_PRESSED
  | GRID_KEY_HELD
  | ARC_ENCODER_COARSE
  | FRONT_BUTTON_PRESSED
  | FRONT_BUTTON_HELD
  | BUTTON_PRESSED
  | I2C_RECEIVED
  | TIMED_EVENT
  | other (code : Nat)
  deriving DecidableEq, Repr

/-! ## Access to the selected pattern -/

/-- Read `preset.p[selected_pattern].er[i]`. -/
def er_get (s : State) (i : Fin ER_COUNT) : ek_er_t :=
  (s.preset.p s.selected_pattern).er i

/-- Write `preset.p[selected_pattern].er[i]`. -/
def er_set (s : State) (i : Fin ER_COUNT) (e : ek_er_t) : State :=
  { s with
    preset :=
      { p := Function.update s.preset.p s.selected_pattern
          { er := Function.update (s.preset.p s.selected_pattern).er i e } } }

/-- Write `shared.active_button[i]`. -/
def button_set (s : State) (i : Fin ER_COUNT) (b : ek_button_t) : State :=
  { s with shared := { active_button := Function.update s.shared.active_button i b } }

/-! ## init_presets -/

/-- The values `init_presets` stores into every channel of every pattern;
`index` is not assigned there and keeps the value it had. -/
def init_er (e : ek_er_t) : ek_er_t :=
  { e with steps := 16, fill := 0, rotation := 0 }

/-- One pass of the two inner loops of `init_presets` over the global `preset`. -/
def init_preset_data (d : preset_data_t) : preset_data_t :=
  { p := fun j => { er := fun k => init_er ((d.p j).er k) } }

/-- The in-memory result of `init_presets`; `preset_count` is the answer of
`get_preset_count()`, the number of passes of the outer loop. The flash stores
are not modelled. -/
def init_presets (preset_count : Nat) (s : State) : State :=
  { s with
    preset := init_preset_data^[preset_count] s.preset
    shared := { active_button := fun _ => ek_button_t.ek_steps } }

/-! ## process_timed_event -/

def process_timed_event (s : State) (index : Nat) : State × List Effect :=
  if GATE_OFF_TIMER ≤ index ∧ index < GATE_OFF_TIMER + 4 then
    (s, [Effect.set_gate (index - GATE_OFF_TIMER) 0])
  else
    (s, [])

/-! ## external_clock_received -/

/-- The value of `index` after `if ( ++index >= steps ) index = 0;`. -/
def next_index (steps index : Nat) : Nat :=
  let index1 := (index + 1) % 256
  if index1 ≥ steps then 0 else index1

/-- One iteration of the loop of `external_clock_received`. -/
def clock_channel (euclidean : Nat → Nat → Nat → Nat) (s : State) (i : Fin ER_COUNT) :
    Option (State × List Effect) :=
  let steps := (er_get s i).steps
  let fill := (er_get s i).fill
  let rotation := (er_get s i).rotation
  let index := next_index steps (er_get s i).index
  let s1 := er_set s i { er_get s i with index := index }
  if steps = 0 then
    none
  else if euclidean fill steps ((index + rotation) % steps) ≠ 0 then
    some (s1, [Effect.set_gate i.val 1,
               Effect.add_timed_event (GATE_OFF_TIMER + i.val) FIXED_GATE_LENGTH 0])
  else
    some (s1, [])

/-- Run a loop body for the given channel indices in order, threading the
state and concatenating the effects; stops at the first undefined step. -/
def for_channels (body : State → Fin ER_COUNT → Option (State × List Effect)) :
    List (Fin ER_COUNT) → State → Option (State × List Effect)
  | [], s => some (s, [])
  | i :: rest, s =>
    match body s i with
    | none => none
    | some (s1, t1) =>
      match for_channels body rest s1 with
      | none => none
      | some (s2, t2) => some (s2, t1 ++ t2)

def external_clock_received (euclidean : Nat → Nat → Nat → Nat) (s : State) :
    Option (State × List Effect) :=
  match for_channels (clock_channel euclidean) (List.finRange ER_COUNT) s with
  | none => none
  | some (s1, t1) => some (s1, t1 ++ [Effect.refresh_grid])

/-! ## event_main_clock -/

def event_main_clock (euclidean : Nat → Nat → Nat → Nat) (s : State) (external phase : Nat) :
    Option (State × List Effect) :=
  if Nat.land external phase ≠ 0 then external_clock_received euclidean s
  else some (s, [])

/-! ## handler_ek_grid_key -/

/-- The store `shared.active_button[er_index] = b; refresh_grid();`. -/
def select_button (s : State) (er_index : Nat) (b : ek_button_t) :
    Option (State × List Effect) :=
  if h : er_index < ER_COUNT then
    some (button_set s ⟨er_index, h⟩ b, [Effect.refresh_grid])
  else
    none

/-- The first `if` of `handler_ek_grid_key`: the selector buttons. -/
def grid_key_buttons (s : State) (x y z : Nat) : Option (State × List Effect) :=
  if z ≠ 0 ∧ y % 2 = 1 then
    let er_index := ((y - 1) / 2) % 256
    if x ≤ 2 then
      select_button s er_index ek_button_t.ek_steps
    else if 4 ≤ x ∧ x ≤ 6 then
      select_button s er_index ek_button_t.ek_fill
    else if 8 ≤ x ∧ x ≤ 10 then
      select_button s er_index ek_button_t.ek_rotation
    else
      some (s, [])
  else
    some (s, [])

/-- The body of the second `if` of `handler_ek_grid_key`, for a channel index
that is in range: the edit of the channel's selected parameter. -/
def edit_channel (s : State) (c : Fin ER_COUNT) (x : Nat) : State × List Effect :=
  let active_button := s.shared.active_button c
  let steps := (er_get s c).steps
  let index := (er_get s c).index
  if active_button = ek_button_t.ek_steps ∧ x > 0 then
    let steps := (x + 1) % 256
    let s1 := er_set s c { er_get s c with steps := steps }
    let s2 :=
      if index ≥ steps then
        er_set s1 c { er_get s1 c with index := (steps + 255) % 256 }
      else s1
    (s2, [Effect.refresh_grid])
  else if active_button = ek_button_t.ek_fill ∧ x < steps then
    (er_set s c { er_get s c with fill := (x + 1) % 256 }, [Effect.refresh_grid])
  else if active_button = ek_button_t.ek_rotation ∧ x < steps then
    (er_set s c { er_get s c with rotation := (x + 1) % 256 }, [Effect.refresh_grid])
  else
    (s, [])

/-- The second `if` of `handler_ek_grid_key`: the step strip. The reads of
`shared.active_button[er_index]` and `er[er_index]` need `er_index` in range. -/
def grid_key_steps (s : State) (x y z : Nat) : Option (State × List Effect) :=
  if z ≠ 0 ∧ y % 2 = 0 then
    let er_index := (y / 2) % 256
    if h : er_index < ER_COUNT then
      some (edit_channel s ⟨er_index, h⟩ x)
    else
      none
  else
    some (s, [])

def handler_ek_grid_key (s : State) (x y z : Nat) : Option (State × List Effect) :=
  match grid_key_buttons s x y z with
  | none => none
  | some (s1, t1) =>
    match grid_key_steps s1 x y z with
    | none => none
    | some (s2, t2) => some (s2, t1 ++ t2)

/-! ## render_grid -/

/-- The calls `grid_filled_rect` makes, outer loop over the width and inner
loop over the height. -/
def grid_filled_rect (x y width height brightness : Nat) : List Effect :=
  (List.range width).flatMap fun i =>
    (List.range height).map fun j => Effect.set_grid_led (x + i) (y + j) brightness

/-- One iteration of the channel loop of `render_grid`. -/
def render_channel (euclidean : Nat → Nat → Nat → Nat) (s : State) (i : Fin ER_COUNT) :
    List Effect :=
  let steps := (er_get s i).steps
  let fill := (er_get s i).fill
  let rotation := (er_get s i).rotation
  let index := (er_get s i).index
  let active_button := s.shared.active_button i
  ((List.range steps).map fun j =>
      let er_step := euclidean fill steps ((index + rotation) % steps) % 256
      Effect.set_grid_led j (i.val * 2) (if er_step ≠ 0 then GRID_LED_MEDIUM else GRID_LED_LOW))
  ++ [Effect.set_grid_led index (i.val * 2) GRID_LED_HIGH]
  ++ grid_filled_rect 0 (i.val * 2 + 1) 3 1
      (if active_button = ek_button_t.ek_steps then GRID_LED_MEDIUM else GRID_LED_LOW)
  ++ grid_filled_rect 4 (i.val * 2 + 1) 3 1
      (if active_button = ek_button_t.ek_fill then GRID_LED_MEDIUM else GRID_LED_LOW)
  ++ grid_filled_rect 4 (i.val * 2 + 1) 3 1
      (if active_button = ek_button_t.ek_rotation then GRID_LED_MEDIUM else GRID_LED_LOW)

/-- The function `render_grid`; `connected` is the answer of `is_grid_connected()`.
The globals are threaded through and returned. -/
def render_grid (euclidean : Nat → Nat → Nat → Nat) (connected : Bool) (s : State) :
    State × List Effect :=
  if !connected then (s, [])
  else
    (s, Effect.clear_all_grid_leds ::
          (List.finRange ER_COUNT).flatMap (render_channel euclidean s))

/-! ## process_event -/

/-- The dispatcher `process_event`; `data` is the payload buffer, and reading
an element it does not have is undefined. -/
def process_event (euclidean : Nat → Nat → Nat → Nat) (s : State) (event : event_t)
    (data : List Nat) : Option (State × List Effect) :=
  match event with
  | event_t.MAIN_CLOCK_RECEIVED =>
    match data[0]?, data[1]? with
    | some d0, some d1 => event_main_clock euclidean s d0 d1
    | _, _ => none
  | event_t.GRID_KEY_PRESSED =>
    match data[0]?, data[1]?, data[2]? with
    | some d0, some d1, some d2 => handler_ek_grid_key s d0 d1 d2
    | _, _, _ => none
  | event_t.TIMED_EVENT =>
    match data[0]? with
    | some d0 => some (process_timed_event s d0)
    | none => none
  | _ => some (s, [])

/-! ## Sequences of clock ticks -/

/-- The result of `n` accepted clock ticks in a row, nothing in between. -/
def clock_ticks (euclidean : Nat → Nat → Nat → Nat) : Nat → State → Option (State × List Effect)
  | 0, s => some (s, [])
  | n + 1, s =>
    match external_clock_received euclidean s with
    | none => none
    | some (s1, t1) =>
      match clock_ticks euclidean n s1 with
      | none => none
      | some (s2, t2) => some (s2, t1 ++ t2)

/-! ## Predicates used in the statements -/

/-- The channel invariant of the data model, for one channel. -/
def er_inv (e : ek_er_t) : Prop :=
  e.fill ≤ e.steps ∧ e.index < e.steps ∧ e.rotation < e.steps

instance (e : ek_er_t) : Decidable (er_inv e) := by
  unfold er_inv; infer_instance

/-- The state `s1` is `s` with channel `c` of the selected pattern replaced by
`e`: the other channels, the other patterns, the parameter selection and the
selected pattern are those of `s`. -/
def channel_changed (s s1 : State) (c : Fin ER_COUNT) (e : ek_er_t) : Prop :=
  er_get s1 c = e
    ∧ (∀ j, j ≠ c → er_get s1 j = er_get s j)
    ∧ (∀ q, q ≠ s.selected_pattern → s1.preset.p q = s.preset.p q)
    ∧ s1.shared = s.shared
    ∧ s1.selected_pattern = s.selected_pattern

/-- The state `s1` is `s` with the active parameter of channel `c` set to `b`:
the other channels' selections and all pattern data are those of `s`. -/
def selection_changed (s s1 : State) (c : Fin ER_COUNT) (b : ek_button_t) : Prop :=
  s1.shared.active_button c = b
    ∧ (∀ j, j ≠ c → s1.shared.active_button j = s.shared.active_button j)
    ∧ s1.preset = s.preset
    ∧ s1.selected_pattern = s.selected_pattern

/-- The number of payload bytes `process_event` reads for an event kind. -/
def payload_length : event_t → Nat
  | event_t.MAIN_CLOCK_RECEIVED => 2
  | event_t.GRID_KEY_PRESSED => 3
  | event_t.TIMED_EVENT => 1
  | _ => 0

/-- A channel record after one accepted tick. -/
def tick_er (e : ek_er_t) : ek_er_t :=
  { e with index := next_index e.steps e.index }

/-- The gate calls one accepted tick makes for channel number `i` holding `e`. -/
def gate_effects (euclidean : Nat → Nat → Nat → Nat) (e : ek_er_t) (i : Nat) : List Effect :=
  if euclidean e.fill e.steps ((next_index e.steps e.index + e.rotation) % e.steps) ≠ 0 then
    [Effect.set_gate i 1, Effect.add_timed_event (GATE_OFF_TIMER + i) FIXED_GATE_LENGTH 0]
  else []

/-- The brightness a call sets LED `(x, y)` to, if it is a `set_grid_led` call
for that LED. -/
def set_led_call (e : Effect) (x y : Nat) : Option Nat :=
  match e with
  | Effect.set_grid_led x1 y1 b => if x1 = x ∧ y1 = y then some b else none
  | _ => none

/-- The brightness of the last `set_grid_led(x, y, _)` call of a trace, if the
trace has such a call: what the calls of the trace leave at LED `(x, y)`. -/
def last_set_led : List Effect → Nat → Nat → Option Nat
  | [], _, _ => none
  | e :: rest, x, y => (last_set_led rest x y).or (set_led_call e x y)

/-- Scan of a trace for the pairing of gate-on calls with schedule calls.
`pending` is the channel of a `set_gate(c, on)` that still waits for its
`add_timed_event`. The scan accepts when every gate-on is immediately followed
by `add_timed_event(GATE_OFF_TIMER + c, FIXED_GATE_LENGTH, 0)` and there is no
other `add_timed_event`. -/
def gate_scan : Option Nat → List Effect → Bool
  | none, [] => true
  | some _, [] => false
  | none, Effect.set_gate c level :: rest =>
    if level = 0 then gate_scan none rest else gate_scan (some c) rest
  | none, Effect.add_timed_event _ _ _ :: _ => false
  | none, _ :: rest => gate_scan none rest
  | some c, Effect.add_timed_event id delay rep :: rest =>
    (id == GATE_OFF_TIMER + c && delay == FIXED_GATE_LENGTH && rep == 0) && gate_scan none rest
  | some _, _ :: _ => false

/-- Every gate-on of the trace schedules exactly one gate-off event. -/
def gate_ons_scheduled (tr : List Effect) : Prop :=
  gate_scan none tr = true

instance (tr : List Effect) : Decidable (gate_ons_scheduled tr) := by
  unfold gate_ons_scheduled; infer_instance

/-- The calls `tr` made for the event `(event, data)` have no spurious
gate-off: a `set_gate(c, 0)` is made only for a timed event with id
`GATE_OFF_TIMER + c` of a channel `c`, and every gate-on schedules exactly one
gate-off event. -/
def no_spurious_gate_off (e : event_t × List Nat) (tr : List Effect) : Prop :=
  (∀ c, Effect.set_gate c 0 ∈ tr →
      e.1 = event_t.TIMED_EVENT ∧ e.2[0]? = some (GATE_OFF_TIMER + c) ∧ c < ER_COUNT)
    ∧ gate_ons_scheduled tr

/-- The events of a sequence handled by `process_event` one after the other;
the result has the calls of each event, in order. -/
def process_events (euclidean : Nat → Nat → Nat → Nat) :
    List (event_t × List Nat) → State → Option (State × List (List Effect))
  | [], s => some (s, [])
  | (event, data) :: rest, s =>
    match process_event euclidean s event data with
    | none => none
    | some (s1, t1) =>
      match process_events euclidean rest s1 with
      | none => none
      | some (s2, ts) => some (s2, t1 :: ts)

/-- The payload has the bytes `process_event` reads for the event kind, and a
grid key event has its column below `width` and its row on one of the
`ER_COUNT` channels. -/
def event_in_range (width : Nat) (event : event_t) (data : List Nat) : Prop :=
  payload_length event ≤ data.length
    ∧ (event = event_t.GRID_KEY_PRESSED →
        data.getD 0 0 < width ∧ data.getD 1 0 / 2 < ER_COUNT)

instance (width : Nat) (event : event_t) (data : List Nat) :
    Decidable (event_in_range width event data) := by
  unfold event_in_range; infer_instance

/-- Modelled from the spec: the function `euclidean` of euclidean.h, which is
not among the sources. Section 4.1 of the spec gives the placement: the active
positions are `floor(i * steps / fill)` for `i` in `0..fill`. The result is a
C truth value, 1 for an active position and 0 otherwise. -/
def euclidean (fill steps position : Nat) : Nat :=
  if ∃ i, i < fill ∧ i * steps / fill = position then 1 else 0

/-- A state used in the concrete evaluations: channel `i` of every pattern has
`steps = 4 * (i + 1)`, `fill = i + 3`, `rotation = i + 2` and `index = 3`; channel 0
edits `steps`, channel 1 `fill`, the others `rotation`. -/
def demo_state : State :=
  { preset := { p := fun _ => { er := fun i =>
      { steps := 4 * (i.val + 1), fill := i.val + 3, rotation := i.val + 2, index := 3 } } }
    shared := { active_button := fun i =>
      if i.val = 0 then ek_button_t.ek_steps
      else if i.val = 1 then ek_button_t.ek_fill else ek_button_t.ek_rotation }
    selected_pattern := 0 }

/-- A stand-in for `euclidean` used in the concrete evaluations: the
positions `floor(i * steps / fill)`, `i < fill`, are the active ones. -/
def demo_euclidean (fill steps position : Nat) : Nat :=
  if (List.range fill).any (fun i => i * steps / fill == position) then 1 else 0

/-! ## Basic facts about the accessors -/

@[simp] theorem er_get_er_set (s : State) (i j : Fin ER_COUNT) (e : ek_er_t) :
    er_get (er_set s i e) j = if j = i then e else er_get s j := by
  by_cases h : j = i
  · subst h; simp [er_get, er_set]
  · simp [er_get, er_set, Function.update_noteq h, h]

@[simp] theorem er_set_shared (s : State) (i : Fin ER_COUNT) (e : ek_er_t) :
    (er_set s i e).shared = s.shared := rfl

@[simp] theorem er_set_selected_pattern (s : State) (i : Fin ER_COUNT) (e : ek_er_t) :
    (er_set s i e).selected_pattern = s.selected_pattern := rfl

theorem er_set_other_pattern (s : State) (i : Fin ER_COUNT) (e : ek_er_t)
    (q : Fin PATTERN_COUNT) (hq : q ≠ s.selected_pattern) :
    (er_set s i e).preset.p q = s.preset.p q := by
  simp [er_set, Function.update_noteq hq]

@[simp] theorem er_get_button_set (s : State) (i j : Fin ER_COUNT) (b : ek_button_t) :
    er_get (button_set s i b) j = er_get s j := rfl

@[simp] theorem button_set_preset (s : State) (i : Fin ER_COUNT) (b : ek_button_t) :
    (button_set s i b).preset = s.preset := rfl

@[simp] theorem button_set_selected_pattern (s : State) (i : Fin ER_COUNT) (b : ek_button_t) :
    (button_set s i b).selected_pattern = s.selected_pattern := rfl

@[simp] theorem button_set_active (s : State) (i j : Fin ER_COUNT) (b : ek_button_t) :
    (button_set s i b).shared.active_button j
      = if j = i then b else s.shared.active_button j := by
  simp [button_set, Function.update_apply]

/-! ## The clock tick in closed form -/

theorem clock_channel_eq (euclidean : Nat → Nat → Nat → Nat) (s : State) (i : Fin ER_COUNT)
    (h : (er_get s i).steps ≠ 0) :
    clock_channel euclidean s i
      = some (er_set s i (tick_er (er_get s i)), gate_effects euclidean (er_get s i) i.val) := by
  unfold clock_channel gate_effects tick_er
  simp only [h, if_false]
  split <;> rfl

theorem clock_channel_none (euclidean : Nat → Nat → Nat → Nat) (s : State) (i : Fin ER_COUNT)
    (h : (er_get s i).steps = 0) : clock_channel euclidean s i = none := by
  unfold clock_channel
  simp [h]

theorem for_channels_clock (euclidean : Nat → Nat → Nat → Nat) :
    ∀ (l : List (Fin ER_COUNT)), l.Nodup → ∀ s : State, (∀ j, (er_get s j).steps ≠ 0) →
      ∃ s1, for_channels (clock_channel euclidean) l s
          = some (s1, l.flatMap fun i => gate_effects euclidean (er_get s i) i.val)
        ∧ s1.shared = s.shared ∧ s1.selected_pattern = s.selected_pattern
        ∧ (∀ j, er_get s1 j = if j ∈ l then tick_er (er_get s j) else er_get s j)
        ∧ (∀ q, q ≠ s.selected_pattern → s1.preset.p q = s.preset.p q) := by
  intro l
  induction l with
  | nil =>
    intro _ s _
    exact ⟨s, rfl, rfl, rfl, fun j => by simp, fun _ _ => rfl⟩
  | cons i rest ih =>
    intro hnd s hs
    have hi : i ∉ rest := (List.nodup_cons.mp hnd).1
    have hrest : rest.Nodup := (List.nodup_cons.mp hnd).2
    have hs1 : ∀ j, (er_get (er_set s i (tick_er (er_get s i))) j).steps ≠ 0 := by
      intro j
      rw [er_get_er_set]
      split
      · next h => subst h; exact hs j
      · exact hs j
    obtain ⟨s1, hrun, hsh, hsel, her, hoth⟩ := ih hrest _ hs1
    refine ⟨s1, ?_, ?_, ?_, ?_, ?_⟩
    · have hcongr : (rest.flatMap fun k =>
            gate_effects euclidean (er_get (er_set s i (tick_er (er_get s i))) k) k.val)
          = rest.flatMap fun k => gate_effects euclidean (er_get s k) k.val := by
        apply List.flatMap_congr
        intro k hk
        have hki : k ≠ i := fun h => hi (h ▸ hk)
        simp [hki]
      simp only [for_channels, clock_channel_eq euclidean s i (hs i), hrun, hcongr,
        List.flatMap_cons]
    · simpa using hsh
    · simpa using hsel
    · intro j
      rw [her j, er_get_er_set]
      by_cases hji : j = i
      · subst hji; simp [hi]
      · simp [hji]
    · intro q hq
      have hq1 : q ≠ (er_set s i (tick_er (er_get s i))).selected_pattern := by simpa using hq
      rw [hoth q hq1]
      exact er_set_other_pattern s i _ q hq

/-- With every `steps` nonzero an accepted tick is defined: every channel of
the selected pattern is advanced, nothing else changes, and the calls are the
gate calls of the channels in order followed by one `refresh_grid`. -/
theorem external_clock_received_eq (euclidean : Nat → Nat → Nat → Nat) (s : State)
    (hs : ∀ j, (er_get s j).steps ≠ 0) :
    ∃ s1, external_clock_received euclidean s
        = some (s1, ((List.finRange ER_COUNT).flatMap fun i =>
              gate_effects euclidean (er_get s i) i.val) ++ [Effect.refresh_grid])
      ∧ s1.shared = s.shared ∧ s1.selected_pattern = s.selected_pattern
      ∧ (∀ j, er_get s1 j = tick_er (er_get s j))
      ∧ (∀ q, q ≠ s.selected_pattern → s1.preset.p q = s.preset.p q) := by
  obtain ⟨s1, hrun, hsh, hsel, her, hoth⟩ :=
    for_channels_clock euclidean (List.finRange ER_COUNT) (List.nodup_finRange _) s hs
  refine ⟨s1, ?_, hsh, hsel, ?_, hoth⟩
  · simp only [external_clock_received, hrun]
  · intro j
    rw [her j]
    simp [List.mem_finRange]

/-- The arithmetic of `if ( ++index >= steps ) index = 0;` on an index in range. -/
theorem next_index_mod (steps index : Nat) (hi : index < steps) (hu : steps < 256) :
    next_index steps index = (index + 1) % steps := by
  unfold next_index
  have h1 : (index + 1) % 256 = index + 1 := Nat.mod_eq_of_lt (by omega)
  simp only [h1]
  by_cases h : index + 1 ≥ steps
  · have : index + 1 = steps := by omega
    simp [this]
  · simp only [h, if_false]
    exact (Nat.mod_eq_of_lt (by omega)).symm

/-- After `n` accepted ticks every channel has its `steps`, `fill` and
`rotation` unchanged and, when its index was in range, the index moved on by
`n` modulo `steps`. -/
theorem clock_ticks_eq (euclidean : Nat → Nat → Nat → Nat) :
    ∀ (n : Nat) (s : State), (∀ j, (er_get s j).steps ≠ 0) →
      ∃ s1 tr, clock_ticks euclidean n s = some (s1, tr)
        ∧ ∀ j, (er_get s1 j).steps = (er_get s j).steps
            ∧ (er_get s1 j).fill = (er_get s j).fill
            ∧ (er_get s1 j).rotation = (er_get s j).rotation
            ∧ ((er_get s j).index < (er_get s j).steps → (er_get s j).steps < 256 →
                (er_get s1 j).index = ((er_get s j).index + n) % (er_get s j).steps) := by
  intro n
  induction n with
  | zero =>
    intro s _
    refine ⟨s, [], rfl, fun j => ⟨rfl, rfl, rfl, fun hi _ => ?_⟩⟩
    simp [Nat.mod_eq_of_lt hi]
  | succ n ih =>
    intro s hs
    obtain ⟨s1, hrun, -, -, her, -⟩ := external_clock_received_eq euclidean s hs
    have hs1 : ∀ j, (er_get s1 j).steps ≠ 0 := by
      intro j; rw [her j]; exact hs j
    obtain ⟨s2, tr2, hrun2, h2⟩ := ih s1 hs1
    have hrun3 : clock_ticks euclidean (n + 1) s
        = some (s2, (((List.finRange ER_COUNT).flatMap fun i =>
            gate_effects euclidean (er_get s i) i.val) ++ [Effect.refresh_grid]) ++ tr2) := by
      simp only [clock_ticks, hrun, hrun2]
    refine ⟨s2, _, hrun3, fun j => ?_⟩
    obtain ⟨hst, hfi, hro, hix⟩ := h2 j
    rw [her j] at hst hfi hro hix
    refine ⟨hst, hfi, hro, fun hi hu => ?_⟩
    have hnext : (tick_er (er_get s j)).index = ((er_get s j).index + 1) % (er_get s j).steps :=
      next_index_mod _ _ hi hu
    have hlt : (tick_er (er_get s j)).index < (tick_er (er_get s j)).steps := by
      rw [hnext]; exact Nat.mod_lt _ (by omega)
    rw [hix hlt hu, hnext]
    show (((er_get s j).index + 1) % (er_get s j).steps + n) % (er_get s j).steps = _
    rw [Nat.mod_add_mod]
    congr 1
    omega

/-! ## The claims -/

/-- C1: for every channel of the selected pattern with `steps >= 1` and
`index < steps`, an accepted clock tick stores `(index + 1) mod steps` into the
channel's index and leaves its `steps`, `fill` and `rotation` unchanged. The
tick is defined when no channel has `steps = 0`. -/
theorem C1_tick_advances_index (euclidean : Nat → Nat → Nat → Nat) (s : State)
    (hdef : ∀ j, 1 ≤ (er_get s j).steps) (i : Fin ER_COUNT)
    (hidx : (er_get s i).index < (er_get s i).steps) (hu8 : (er_get s i).steps < 256) :
    ∃ s1 tr, external_clock_received euclidean s = some (s1, tr)
      ∧ (er_get s1 i).index = ((er_get s i).index + 1) % (er_get s i).steps
      ∧ (er_get s1 i).steps = (er_get s i).steps
      ∧ (er_get s1 i).fill = (er_get s i).fill
      ∧ (er_get s1 i).rotation = (er_get s i).rotation := by
  obtain ⟨s1, hrun, -, -, her, -⟩ :=
    external_clock_received_eq euclidean s (fun j => by have := hdef j; omega)
  refine ⟨s1, _, hrun, ?_, ?_, ?_, ?_⟩
  · rw [her i]; exact next_index_mod _ _ hidx hu8
  · rw [her i]; rfl
  · rw [her i]; rfl
  · rw [her i]; rfl

theorem C1_tick_advances_index_witness :
    ∃ s1 tr, external_clock_received demo_euclidean demo_state = some (s1, tr)
      ∧ (er_get s1 0).index = ((er_get demo_state 0).index + 1) % (er_get demo_state 0).steps
      ∧ (er_get s1 0).steps = (er_get demo_state 0).steps
      ∧ (er_get s1 0).fill = (er_get demo_state 0).fill
      ∧ (er_get s1 0).rotation = (er_get demo_state 0).rotation :=
  C1_tick_advances_index demo_euclidean demo_state (by decide) 0 (by decide) (by decide)

/-- C2: for every channel with `steps >= 1` and `index < steps`, exactly
`steps` accepted clock ticks in a row, with nothing in between, bring the
channel's index back to its original value. -/
theorem C2_steps_ticks_return_index (euclidean : Nat → Nat → Nat → Nat) (s : State)
    (hdef : ∀ j, 1 ≤ (er_get s j).steps) (i : Fin ER_COUNT)
    (hidx : (er_get s i).index < (er_get s i).steps) (hu8 : (er_get s i).steps < 256) :
    ∃ s1 tr, clock_ticks euclidean (er_get s i).steps s = some (s1, tr)
      ∧ (er_get s1 i).index = (er_get s i).index := by
  obtain ⟨s1, tr, hrun, h⟩ :=
    clock_ticks_eq euclidean (er_get s i).steps s (fun j => by have := hdef j; omega)
  refine ⟨s1, tr, hrun, ?_⟩
  rw [(h i).2.2.2 hidx hu8, Nat.add_mod_right, Nat.mod_eq_of_lt hidx]

theorem C2_steps_ticks_return_index_witness :
    ∃ s1 tr, clock_ticks demo_euclidean (er_get demo_state 1).steps demo_state = some (s1, tr)
      ∧ (er_get s1 1).index = (er_get demo_state 1).index :=
  C2_steps_ticks_return_index demo_euclidean demo_state (by decide) 1 (by decide) (by decide)

/-- C3 (as stated) fails: with `external = 1` and `phase = 2` both flag bytes
are nonzero, yet `event_main_clock` does not advance: channel 0 keeps index 3
and nothing is called, where an accepted tick moves it to 0 and requests a
re-render. -/
theorem C3_counterexample :
    (1 : Nat) ≠ 0 ∧ (2 : Nat) ≠ 0
      ∧ (event_main_clock demo_euclidean demo_state 1 2).map
          (fun r => ((er_get r.1 0).index, r.2)) = some (3, [])
      ∧ (external_clock_received demo_euclidean demo_state).map
          (fun r => ((er_get r.1 0).index, r.2))
          = some (0, [Effect.set_gate 0 1, Effect.add_timed_event 0 5 0, Effect.refresh_grid]) := by
  decide

/-- C3 (amended): `event_main_clock` runs `external_clock_received` exactly
when the bitwise AND of the two flag bytes is nonzero, and otherwise changes
nothing and calls nothing; for flag bytes that are 0 or 1 the bitwise AND is
nonzero exactly when both flags are set. -/
theorem C3_main_clock_bitwise_and (euclidean : Nat → Nat → Nat → Nat) (s : State)
    (external phase : Nat) :
    (Nat.land external phase ≠ 0 →
        event_main_clock euclidean s external phase = external_clock_received euclidean s)
      ∧ (Nat.land external phase = 0 →
        event_main_clock euclidean s external phase = some (s, []))
      ∧ (external ≤ 1 → phase ≤ 1 →
        (Nat.land external phase ≠ 0 ↔ external ≠ 0 ∧ phase ≠ 0)) := by
  refine ⟨fun h => ?_, fun h => ?_, fun he hp => ?_⟩
  · simp [event_main_clock, h]
  · simp [event_main_clock, h]
  · interval_cases external <;> interval_cases phase <;> decide

theorem C3_main_clock_bitwise_and_witness :
    event_main_clock demo_euclidean demo_state 1 1
        = external_clock_received demo_euclidean demo_state
      ∧ event_main_clock demo_euclidean demo_state 1 0 = some (demo_state, [])
      ∧ event_main_clock demo_euclidean demo_state 1 2 = some (demo_state, []) :=
  ⟨(C3_main_clock_bitwise_and demo_euclidean demo_state 1 1).1 (by decide),
   (C3_main_clock_bitwise_and demo_euclidean demo_state 1 0).2.1 (by decide),
   (C3_main_clock_bitwise_and demo_euclidean demo_state 1 2).2.1 (by decide)⟩

/-- C4: when every channel has `steps >= 1`, the calls of one accepted clock
tick are, for channels 0, 1, 2, 3 in this order, `set_gate(i, 1)` immediately
followed by `add_timed_event(GATE_OFF_TIMER + i, FIXED_GATE_LENGTH, 0)` exactly
when `euclidean(fill, steps, (next_index + rotation) mod steps)` is true for
channel `i`, where `next_index` is the index the tick stores, and nothing for
that channel otherwise; then exactly one `refresh_grid`, after all channels. -/
theorem C4_tick_effect_trace (euclidean : Nat → Nat → Nat → Nat) (s : State)
    (hdef : ∀ j, 1 ≤ (er_get s j).steps) :
    ∃ s1, external_clock_received euclidean s
        = some (s1,
            ([0, 1, 2, 3] : List (Fin ER_COUNT)).flatMap (fun i =>
              if euclidean (er_get s i).fill (er_get s i).steps
                  (((er_get s1 i).index + (er_get s i).rotation) % (er_get s i).steps) ≠ 0
              then [Effect.set_gate i.val 1,
                    Effect.add_timed_event (GATE_OFF_TIMER + i.val) FIXED_GATE_LENGTH 0]
              else [])
            ++ [Effect.refresh_grid]) := by
  obtain ⟨s1, hrun, -, -, her, -⟩ :=
    external_clock_received_eq euclidean s (fun j => by have := hdef j; omega)
  refine ⟨s1, ?_⟩
  rw [hrun]
  have hfin : List.finRange ER_COUNT = [0, 1, 2, 3] := by decide
  rw [hfin]
  have hgate : (([0, 1, 2, 3] : List (Fin ER_COUNT)).flatMap fun i =>
        gate_effects euclidean (er_get s i) i.val)
      = ([0, 1, 2, 3] : List (Fin ER_COUNT)).flatMap (fun i =>
          if euclidean (er_get s i).fill (er_get s i).steps
              (((er_get s1 i).index + (er_get s i).rotation) % (er_get s i).steps) ≠ 0
          then [Effect.set_gate i.val 1,
                Effect.add_timed_event (GATE_OFF_TIMER + i.val) FIXED_GATE_LENGTH 0]
          else []) := by
    apply List.flatMap_congr
    intro i _
    rw [her i]
    rfl
  rw [hgate]

theorem C4_tick_effect_trace_witness :
    ∃ s1, external_clock_received demo_euclidean demo_state
        = some (s1,
            ([0, 1, 2, 3] : List (Fin ER_COUNT)).flatMap (fun i =>
              if demo_euclidean (er_get demo_state i).fill (er_get demo_state i).steps
                  (((er_get s1 i).index + (er_get demo_state i).rotation)
                    % (er_get demo_state i).steps) ≠ 0
              then [Effect.set_gate i.val 1,
                    Effect.add_timed_event (GATE_OFF_TIMER + i.val) FIXED_GATE_LENGTH 0]
              else [])
            ++ [Effect.refresh_grid]) :=
  C4_tick_effect_trace demo_euclidean demo_state (by decide)

/-! ## The grid key handler on even and odd rows -/

theorem grid_key_buttons_even (s : State) (x y z : Nat) (hy : y % 2 = 0) :
    grid_key_buttons s x y z = some (s, []) := by
  simp [grid_key_buttons, hy]

theorem grid_key_steps_odd (s : State) (x y z : Nat) (hy : y % 2 = 1) :
    grid_key_steps s x y z = some (s, []) := by
  simp [grid_key_steps, hy]

theorem grid_key_steps_even (s : State) (x y z : Nat) (hz : z ≠ 0) (hy : y % 2 = 0)
    (hc : y / 2 < ER_COUNT) :
    grid_key_steps s x y z = some (edit_channel s ⟨y / 2, hc⟩ x) := by
  have h4 : y / 2 < 4 := hc
  have h256 : y / 2 % 256 = y / 2 := Nat.mod_eq_of_lt (by omega)
  simp [grid_key_steps, hz, hy, h256, hc]

/-- A press on an even row of a channel runs the edit of that channel. -/
theorem handler_even (s : State) (x y z : Nat) (hz : z ≠ 0) (hy : y % 2 = 0)
    (hc : y / 2 < ER_COUNT) :
    handler_ek_grid_key s x y z = some (edit_channel s ⟨y / 2, hc⟩ x) := by
  simp [handler_ek_grid_key, grid_key_buttons_even s x y z hy,
    grid_key_steps_even s x y z hz hy hc]

/-- On an odd row only the selector buttons are looked at. -/
theorem handler_odd (s : State) (x y z : Nat) (hy : y % 2 = 1) :
    handler_ek_grid_key s x y z = grid_key_buttons s x y z := by
  unfold handler_ek_grid_key
  cases h : grid_key_buttons s x y z with
  | none => rfl
  | some r =>
    obtain ⟨s1, t1⟩ := r
    simp [grid_key_steps_odd s1 x y z hy]

theorem select_button_in_range (s : State) (er_index : Nat) (b : ek_button_t)
    (h : er_index < ER_COUNT) :
    select_button s er_index b = some (button_set s ⟨er_index, h⟩ b, [Effect.refresh_grid]) := by
  simp [select_button, h]

/-- A key release does nothing. -/
theorem handler_release (s : State) (x y : Nat) :
    handler_ek_grid_key s x y 0 = some (s, []) := by
  simp [handler_ek_grid_key, grid_key_buttons, grid_key_steps]

/-- The steps edit, for a column whose successor fits a `u8`. -/
theorem edit_channel_steps (s : State) (c : Fin ER_COUNT) (x : Nat)
    (hact : s.shared.active_button c = ek_button_t.ek_steps) (hx0 : 0 < x) (hx : x < 255) :
    edit_channel s c x
      = (er_set s c { er_get s c with
            steps := x + 1
            index := if (er_get s c).index ≥ x + 1 then x else (er_get s c).index },
         [Effect.refresh_grid]) := by
  have h1 : (x + 1) % 256 = x + 1 := Nat.mod_eq_of_lt (by omega)
  have h2 : (x + 1 + 255) % 256 = x := by omega
  unfold edit_channel
  simp only [hact, hx0, h1, h2, true_and, gt_iff_lt, if_true]
  by_cases hi : (er_get s c).index ≥ x + 1
  · simp only [hi, if_true]
    congr 1
    simp [er_set, er_get]
  · simp only [hi, if_false]

/-- C5 (as stated) fails: with `steps` selected for channel 0, `steps = 4` and
`index = 3`, the press `(255, 0, 1)` has `x > 0` but stores `steps = 0`, not
`x + 1 = 256`, and `index = 255`, which is not below the new `steps`. -/
theorem C5_counterexample :
    demo_state.shared.active_button 0 = ek_button_t.ek_steps
      ∧ (er_get demo_state 0).index < (er_get demo_state 0).steps
      ∧ (handler_ek_grid_key demo_state 255 0 1).map
          (fun r => ((er_get r.1 0).steps, (er_get r.1 0).index)) = some (0, 255)
      ∧ ¬ ((255 : Nat) < 0) := by
  decide

/-- C5 (amended): for every press `(x, y, pressed)` on an even row whose
channel has `steps` selected, with `0 < x < 255`, `handler_ek_grid_key` sets
`steps = x + 1` and, if the current index is `>=` the new steps, sets
`index = new steps - 1`, else leaves the index; the resulting index is
strictly less than the resulting steps. -/
theorem C5_steps_edit (s : State) (x y z : Nat) (hz : z ≠ 0) (hy : y % 2 = 0)
    (hc : y / 2 < ER_COUNT)
    (hact : s.shared.active_button ⟨y / 2, hc⟩ = ek_button_t.ek_steps)
    (hx0 : 0 < x) (hx : x < 255) :
    ∃ s1 tr, handler_ek_grid_key s x y z = some (s1, tr)
      ∧ (er_get s1 ⟨y / 2, hc⟩).steps = x + 1
      ∧ (er_get s1 ⟨y / 2, hc⟩).index
          = (if (er_get s ⟨y / 2, hc⟩).index ≥ x + 1 then (x + 1) - 1
             else (er_get s ⟨y / 2, hc⟩).index)
      ∧ (er_get s1 ⟨y / 2, hc⟩).index < (er_get s1 ⟨y / 2, hc⟩).steps := by
  have hrun := handler_even s x y z hz hy hc
  rw [edit_channel_steps s _ x hact hx0 hx] at hrun
  refine ⟨_, _, hrun, ?_, ?_, ?_⟩
  · simp
  · simp
  · simp only [er_get_er_set, if_true]
    split <;> omega

theorem C5_steps_edit_witness :
    ∃ s1 tr, handler_ek_grid_key demo_state 1 0 1 = some (s1, tr)
      ∧ (er_get s1 ⟨0 / 2, by decide⟩).steps = 1 + 1
      ∧ (er_get s1 ⟨0 / 2, by decide⟩).index
          = (if (er_get demo_state ⟨0 / 2, by decide⟩).index ≥ 1 + 1 then (1 + 1) - 1
             else (er_get demo_state ⟨0 / 2, by decide⟩).index)
      ∧ (er_get s1 ⟨0 / 2, by decide⟩).index < (er_get s1 ⟨0 / 2, by decide⟩).steps :=
  C5_steps_edit demo_state 1 0 1 (by decide) (by decide) (by decide) (by decide) (by decide)
    (by decide)

theorem channel_changed_er_set (s : State) (c : Fin ER_COUNT) (e : ek_er_t) :
    channel_changed s (er_set s c e) c e := by
  refine ⟨by simp, fun j hj => by simp [hj], fun q hq => er_set_other_pattern s c e q hq,
    rfl, rfl⟩

theorem selection_changed_button_set (s : State) (c : Fin ER_COUNT) (b : ek_button_t) :
    selection_changed s (button_set s c b) c b := by
  refine ⟨by simp, fun j hj => by simp [hj], rfl, rfl⟩

/-- The fill edit: accepted when the column is below `steps`. -/
theorem edit_channel_fill (s : State) (c : Fin ER_COUNT) (x : Nat)
    (hact : s.shared.active_button c = ek_button_t.ek_fill) (hx : x < (er_get s c).steps) :
    edit_channel s c x
      = (er_set s c { er_get s c with fill := (x + 1) % 256 }, [Effect.refresh_grid]) := by
  unfold edit_channel
  simp [hact, hx]

/-- The rotation edit: accepted when the column is below `steps`. -/
theorem edit_channel_rotation (s : State) (c : Fin ER_COUNT) (x : Nat)
    (hact : s.shared.active_button c = ek_button_t.ek_rotation) (hx : x < (er_get s c).steps) :
    edit_channel s c x
      = (er_set s c { er_get s c with rotation := (x + 1) % 256 }, [Effect.refresh_grid]) := by
  unfold edit_channel
  simp [hact, hx]

/-- The rejected edits: nothing is stored and nothing is called. -/
theorem edit_channel_rejected (s : State) (c : Fin ER_COUNT) (x : Nat)
    (hrej : (s.shared.active_button c = ek_button_t.ek_steps ∧ x = 0)
      ∨ (s.shared.active_button c = ek_button_t.ek_fill ∧ (er_get s c).steps ≤ x)
      ∨ (s.shared.active_button c = ek_button_t.ek_rotation ∧ (er_get s c).steps ≤ x)) :
    edit_channel s c x = (s, []) := by
  unfold edit_channel
  rcases hrej with ⟨ha, hx⟩ | ⟨ha, hx⟩ | ⟨ha, hx⟩
  · simp [ha, hx]
  · simp [ha, Nat.not_lt.mpr hx]
  · simp [ha, Nat.not_lt.mpr hx]

/-- Every edit is one of: a steps edit, a fill edit, a rotation edit, nothing. -/
theorem edit_channel_cases (s : State) (c : Fin ER_COUNT) (x : Nat) :
    (s.shared.active_button c = ek_button_t.ek_steps ∧ 0 < x)
      ∨ (s.shared.active_button c = ek_button_t.ek_fill ∧ x < (er_get s c).steps)
      ∨ (s.shared.active_button c = ek_button_t.ek_rotation ∧ x < (er_get s c).steps)
      ∨ edit_channel s c x = (s, []) := by
  cases hb : s.shared.active_button c with
  | ek_steps =>
    by_cases hx : 0 < x
    · exact Or.inl ⟨rfl, hx⟩
    · exact Or.inr (Or.inr (Or.inr
        (edit_channel_rejected s c x (Or.inl ⟨hb, by omega⟩))))
  | ek_fill =>
    by_cases hx : x < (er_get s c).steps
    · exact Or.inr (Or.inl ⟨rfl, hx⟩)
    · exact Or.inr (Or.inr (Or.inr
        (edit_channel_rejected s c x (Or.inr (Or.inl ⟨hb, by omega⟩)))))
  | ek_rotation =>
    by_cases hx : x < (er_get s c).steps
    · exact Or.inr (Or.inr (Or.inl ⟨rfl, hx⟩))
    · exact Or.inr (Or.inr (Or.inr
        (edit_channel_rejected s c x (Or.inr (Or.inr ⟨hb, by omega⟩)))))

theorem next_index_lt (steps index : Nat) (h : steps ≠ 0) : next_index steps index < steps := by
  unfold next_index
  simp only
  split <;> omega

theorem process_timed_event_state (s : State) (index : Nat) :
    (process_timed_event s index).1 = s := by
  unfold process_timed_event
  split <;> rfl

/-- The selector buttons on an odd row that belongs to a channel. -/
theorem grid_key_buttons_odd (s : State) (x y z : Nat) (hz : z ≠ 0) (hy : y % 2 = 1)
    (hc : y / 2 < ER_COUNT) :
    grid_key_buttons s x y z
      = if x ≤ 2 then
          some (button_set s ⟨y / 2, hc⟩ ek_button_t.ek_steps, [Effect.refresh_grid])
        else if 4 ≤ x ∧ x ≤ 6 then
          some (button_set s ⟨y / 2, hc⟩ ek_button_t.ek_fill, [Effect.refresh_grid])
        else if 8 ≤ x ∧ x ≤ 10 then
          some (button_set s ⟨y / 2, hc⟩ ek_button_t.ek_rotation, [Effect.refresh_grid])
        else some (s, []) := by
  have h4 : y / 2 < 4 := hc
  have h256 : (y - 1) / 2 % 256 = y / 2 := by omega
  simp only [grid_key_buttons, hz, hy, h256, select_button, hc, ne_eq, not_false_eq_true,
    and_self, if_true, dif_pos]

/-- What a grid key event can do to the channel records when the row belongs
to a channel and the column is below 255: the property `index < steps` is
kept, and a changed `fill` or `rotation` is at most `steps`. -/
theorem handler_index_inv (s : State) (x y z : Nat) (hx : x < 255) (hc : y / 2 < ER_COUNT)
    (hinv : ∀ j, (er_get s j).index < (er_get s j).steps) :
    ∃ s1 tr, handler_ek_grid_key s x y z = some (s1, tr)
      ∧ (∀ j, (er_get s1 j).index < (er_get s1 j).steps)
      ∧ (∀ j, ((er_get s1 j).fill ≠ (er_get s j).fill →
                (er_get s1 j).fill ≤ (er_get s1 j).steps)
            ∧ ((er_get s1 j).rotation ≠ (er_get s j).rotation →
                (er_get s1 j).rotation ≤ (er_get s1 j).steps)) := by
  have hsame : ∀ s1 : State, (∀ j, er_get s1 j = er_get s j) →
      (∀ j, (er_get s1 j).index < (er_get s1 j).steps)
      ∧ (∀ j, ((er_get s1 j).fill ≠ (er_get s j).fill →
                (er_get s1 j).fill ≤ (er_get s1 j).steps)
            ∧ ((er_get s1 j).rotation ≠ (er_get s j).rotation →
                (er_get s1 j).rotation ≤ (er_get s1 j).steps)) := by
    intro s1 h
    refine ⟨fun j => by rw [h j]; exact hinv j, fun j => ?_⟩
    rw [h j]
    exact ⟨fun hne => absurd rfl hne, fun hne => absurd rfl hne⟩
  by_cases hz : z = 0
  · subst hz
    exact ⟨s, [], handler_release s x y, hsame s (fun _ => rfl)⟩
  rcases Nat.mod_two_eq_zero_or_one y with hy | hy
  · -- even row: an edit of channel y / 2
    have hrun := handler_even s x y z hz hy hc
    rcases edit_channel_cases s ⟨y / 2, hc⟩ x with ⟨ha, hx0⟩ | ⟨ha, hxs⟩ | ⟨ha, hxs⟩ | hnone
    · rw [edit_channel_steps s _ x ha hx0 hx] at hrun
      refine ⟨_, _, hrun, fun j => ?_, fun j => ?_⟩
      · rw [er_get_er_set]
        by_cases hj : j = ⟨y / 2, hc⟩
        · simp only [hj, if_true]; split <;> omega
        · simp only [hj, if_false]; exact hinv j
      · rw [er_get_er_set]
        by_cases hj : j = ⟨y / 2, hc⟩
        · subst hj
          simp
        · simp only [hj, if_false]
          exact ⟨fun hne => absurd rfl hne, fun hne => absurd rfl hne⟩
    · rw [edit_channel_fill s _ x ha hxs] at hrun
      have hle : (x + 1) % 256 ≤ (er_get s ⟨y / 2, hc⟩).steps :=
        le_trans (Nat.mod_le _ _) hxs
      refine ⟨_, _, hrun, fun j => ?_, fun j => ?_⟩
      · rw [er_get_er_set]
        by_cases hj : j = ⟨y / 2, hc⟩
        · subst hj; simpa using hinv _
        · simp only [hj, if_false]; exact hinv j
      · rw [er_get_er_set]
        by_cases hj : j = ⟨y / 2, hc⟩
        · subst hj
          simp only [if_true]
          exact ⟨fun _ => hle, fun hne => absurd rfl hne⟩
        · simp only [hj, if_false]
          exact ⟨fun hne => absurd rfl hne, fun hne => absurd rfl hne⟩
    · rw [edit_channel_rotation s _ x ha hxs] at hrun
      have hle : (x + 1) % 256 ≤ (er_get s ⟨y / 2, hc⟩).steps :=
        le_trans (Nat.mod_le _ _) hxs
      refine ⟨_, _, hrun, fun j => ?_, fun j => ?_⟩
      · rw [er_get_er_set]
        by_cases hj : j = ⟨y / 2, hc⟩
        · subst hj; simpa using hinv _
        · simp only [hj, if_false]; exact hinv j
      · rw [er_get_er_set]
        by_cases hj : j = ⟨y / 2, hc⟩
        · subst hj
          simp only [if_true]
          exact ⟨fun hne => absurd rfl hne, fun _ => hle⟩
        · simp only [hj, if_false]
          exact ⟨fun hne => absurd rfl hne, fun hne => absurd rfl hne⟩
    · rw [hnone] at hrun
      exact ⟨s, [], hrun, hsame s (fun _ => rfl)⟩
  · -- odd row: at most a selection change
    have hrun := handler_odd s x y z hy
    rw [grid_key_buttons_odd s x y z hz hy hc] at hrun
    split at hrun
    · exact ⟨_, _, hrun, hsame _ (fun _ => rfl)⟩
    · split at hrun
      · exact ⟨_, _, hrun, hsame _ (fun _ => rfl)⟩
      · split at hrun
        · exact ⟨_, _, hrun, hsame _ (fun _ => rfl)⟩
        · exact ⟨_, _, hrun, hsame _ (fun _ => rfl)⟩

/-- C6 (as stated) fails. Every channel of `demo_state` satisfies
`fill <= steps`, `index < steps`, `rotation < steps`. The rotation edit
`(11, 4, 1)` of channel 2 (`steps = 12`) stores `rotation = 12`, so
`rotation < steps` is lost; the steps edit `(1, 0, 1)` of channel 0
(`fill = 3`, `rotation = 2`) stores `steps = 2` and re-clamps the index only,
so `fill <= steps` and `rotation < steps` are lost. -/
theorem C6_counterexample :
    (∀ j : Fin ER_COUNT, er_inv (er_get demo_state j))
      ∧ (process_event demo_euclidean demo_state event_t.GRID_KEY_PRESSED [11, 4, 1]).map
          (fun r => er_get r.1 2) = some { steps := 12, fill := 5, rotation := 12, index := 3 }
      ∧ ¬ er_inv { steps := 12, fill := 5, rotation := 12, index := 3 }
      ∧ (process_event demo_euclidean demo_state event_t.GRID_KEY_PRESSED [1, 0, 1]).map
          (fun r => er_get r.1 0) = some { steps := 2, fill := 3, rotation := 2, index := 1 }
      ∧ ¬ er_inv { steps := 2, fill := 3, rotation := 2, index := 1 } := by
  decide

/-- C6 (amended): `index < steps` for every channel is preserved by every
event handled by `process_event` (clock tick, timed event, grid key press on
a row of a channel with column below 255, and every other event kind), the
event being defined on such a state; and an event that changes a channel's
`fill` or `rotation` leaves the new value at most `steps`. -/
theorem C6_index_invariant (euclidean : Nat → Nat → Nat → Nat) (s : State)
    (event : event_t) (data : List Nat)
    (hinv : ∀ j, (er_get s j).index < (er_get s j).steps)
    (hlen : payload_length event ≤ data.length)
    (hkey : event = event_t.GRID_KEY_PRESSED →
      data.getD 0 0 < 255 ∧ data.getD 1 0 / 2 < ER_COUNT) :
    ∃ s1 tr, process_event euclidean s event data = some (s1, tr)
      ∧ (∀ j, (er_get s1 j).index < (er_get s1 j).steps)
      ∧ (∀ j, ((er_get s1 j).fill ≠ (er_get s j).fill →
                (er_get s1 j).fill ≤ (er_get s1 j).steps)
            ∧ ((er_get s1 j).rotation ≠ (er_get s j).rotation →
                (er_get s1 j).rotation ≤ (er_get s1 j).steps)) := by
  have hsame : ∀ s1 : State, (∀ j, er_get s1 j = er_get s j) →
      (∀ j, (er_get s1 j).index < (er_get s1 j).steps)
      ∧ (∀ j, ((er_get s1 j).fill ≠ (er_get s j).fill →
                (er_get s1 j).fill ≤ (er_get s1 j).steps)
            ∧ ((er_get s1 j).rotation ≠ (er_get s j).rotation →
                (er_get s1 j).rotation ≤ (er_get s1 j).steps)) := by
    intro s1 h
    refine ⟨fun j => by rw [h j]; exact hinv j, fun j => ?_⟩
    rw [h j]
    exact ⟨fun hne => absurd rfl hne, fun hne => absurd rfl hne⟩
  cases event with
  | MAIN_CLOCK_RECEIVED =>
    match data, hlen with
    | d0 :: d1 :: rest, _ =>
      by_cases hand : Nat.land d0 d1 ≠ 0
      · obtain ⟨s1, hrun, -, -, her, -⟩ := external_clock_received_eq euclidean s
          (fun j => by have := hinv j; omega)
        have hrun1 : process_event euclidean s event_t.MAIN_CLOCK_RECEIVED (d0 :: d1 :: rest)
            = external_clock_received euclidean s := by
          simp only [process_event, List.getElem?_cons_zero, List.getElem?_cons_succ,
            event_main_clock]
          rw [if_pos hand]
        rw [hrun] at hrun1
        refine ⟨s1, _, hrun1, fun j => ?_, fun j => ?_⟩
        · rw [her j]
          exact next_index_lt _ _ (by have := hinv j; omega)
        · rw [her j]
          exact ⟨fun hne => absurd rfl hne, fun hne => absurd rfl hne⟩
      · refine ⟨s, [], ?_, hsame s (fun _ => rfl)⟩
        simp only [process_event, List.getElem?_cons_zero, List.getElem?_cons_succ,
          event_main_clock]
        rw [if_neg hand]
  | GRID_KEY_PRESSED =>
    match data, hlen, hkey with
    | d0 :: d1 :: d2 :: rest, _, hkey =>
      obtain ⟨hx, hc⟩ := hkey rfl
      obtain ⟨s1, tr, hrun, h⟩ := handler_index_inv s d0 d1 d2 hx hc hinv
      refine ⟨s1, tr, ?_, h⟩
      simp only [process_event, List.getElem?_cons_zero, List.getElem?_cons_succ, hrun]
  | TIMED_EVENT =>
    match data, hlen with
    | d0 :: rest, _ =>
      refine ⟨(process_timed_event s d0).1, (process_timed_event s d0).2, ?_, ?_⟩
      · simp only [process_event, List.getElem?_cons_zero]
      · exact hsame _ (fun j => by rw [process_timed_event_state])
  | MAIN_CLOCK_SWITCHED => exact ⟨s, [], rfl, hsame s (fun _ => rfl)⟩
  | GATE_RECEIVED => exact ⟨s, [], rfl, hsame s (fun _ => rfl)⟩
  | GRID_CONNECTED => exact ⟨s, [], rfl, hsame s (fun _ => rfl)⟩
  | GRID_KEY_HELD => exact ⟨s, [], rfl, hsame s (fun _ => rfl)⟩
  | ARC_ENCODER_COARSE => exact ⟨s, [], rfl, hsame s (fun _ => rfl)⟩
  | FRONT_BUTTON_PRESSED => exact ⟨s, [], rfl, hsame s (fun _ => rfl)⟩
  | FRONT_BUTTON_HELD => exact ⟨s, [], rfl, hsame s (fun _ => rfl)⟩
  | BUTTON_PRESSED => exact ⟨s, [], rfl, hsame s (fun _ => rfl)⟩
  | I2C_RECEIVED => exact ⟨s, [], rfl, hsame s (fun _ => rfl)⟩
  | other code => exact ⟨s, [], rfl, hsame s (fun _ => rfl)⟩

theorem C6_index_invariant_witness :
    ∃ s1 tr, process_event demo_euclidean demo_state event_t.GRID_KEY_PRESSED [11, 4, 1]
        = some (s1, tr)
      ∧ (∀ j, (er_get s1 j).index < (er_get s1 j).steps)
      ∧ (∀ j, ((er_get s1 j).fill ≠ (er_get demo_state j).fill →
                (er_get s1 j).fill ≤ (er_get s1 j).steps)
            ∧ ((er_get s1 j).rotation ≠ (er_get demo_state j).rotation →
                (er_get s1 j).rotation ≤ (er_get s1 j).steps)) :=
  C6_index_invariant demo_euclidean demo_state event_t.GRID_KEY_PRESSED [11, 4, 1]
    (by decide) (by decide) (by decide)

/-- C7: for every press on an even row of a channel with column `x` below the
channel's current `steps`: with `fill` selected the press sets that channel's
`fill` to `x + 1`, with `rotation` selected it sets that channel's `rotation`
to `x + 1`; in both cases every other field of the channel, every other
channel, the other patterns and the selection state are unchanged, and exactly
one re-render is requested. -/
theorem C7_fill_rotation_edit (s : State) (x y z : Nat) (hz : z ≠ 0) (hy : y % 2 = 0)
    (hc : y / 2 < ER_COUNT) (hx : x < (er_get s ⟨y / 2, hc⟩).steps)
    (hu8 : (er_get s ⟨y / 2, hc⟩).steps < 256) :
    (s.shared.active_button ⟨y / 2, hc⟩ = ek_button_t.ek_fill →
        ∃ s1, handler_ek_grid_key s x y z = some (s1, [Effect.refresh_grid])
          ∧ channel_changed s s1 ⟨y / 2, hc⟩ { er_get s ⟨y / 2, hc⟩ with fill := x + 1 })
      ∧ (s.shared.active_button ⟨y / 2, hc⟩ = ek_button_t.ek_rotation →
        ∃ s1, handler_ek_grid_key s x y z = some (s1, [Effect.refresh_grid])
          ∧ channel_changed s s1 ⟨y / 2, hc⟩
              { er_get s ⟨y / 2, hc⟩ with rotation := x + 1 }) := by
  have h1 : (x + 1) % 256 = x + 1 := Nat.mod_eq_of_lt (by omega)
  have hrun := handler_even s x y z hz hy hc
  constructor
  · intro ha
    rw [edit_channel_fill s _ x ha hx, h1] at hrun
    exact ⟨_, hrun, channel_changed_er_set s _ _⟩
  · intro ha
    rw [edit_channel_rotation s _ x ha hx, h1] at hrun
    exact ⟨_, hrun, channel_changed_er_set s _ _⟩

theorem C7_fill_rotation_edit_witness :
    (∃ s1, handler_ek_grid_key demo_state 5 2 1 = some (s1, [Effect.refresh_grid])
        ∧ channel_changed demo_state s1 ⟨2 / 2, by decide⟩
            { er_get demo_state ⟨2 / 2, by decide⟩ with fill := 5 + 1 })
      ∧ (∃ s1, handler_ek_grid_key demo_state 11 4 1 = some (s1, [Effect.refresh_grid])
        ∧ channel_changed demo_state s1 ⟨4 / 2, by decide⟩
            { er_get demo_state ⟨4 / 2, by decide⟩ with rotation := 11 + 1 }) :=
  ⟨(C7_fill_rotation_edit demo_state 5 2 1 (by decide) (by decide) (by decide) (by decide)
      (by decide)).1 (by decide),
   (C7_fill_rotation_edit demo_state 11 4 1 (by decide) (by decide) (by decide) (by decide)
      (by decide)).2 (by decide)⟩

/-- C8: every rejected press on an even row of a channel is a silent no-op:
with `steps` selected and column 0, or with `fill` or `rotation` selected and
column `>=` the current `steps`, `handler_ek_grid_key` leaves the whole state
(pattern data and selection) unchanged and requests no re-render. -/
theorem C8_rejected_edit_noop (s : State) (x y z : Nat) (hz : z ≠ 0) (hy : y % 2 = 0)
    (hc : y / 2 < ER_COUNT)
    (hrej : (s.shared.active_button ⟨y / 2, hc⟩ = ek_button_t.ek_steps ∧ x = 0)
      ∨ (s.shared.active_button ⟨y / 2, hc⟩ = ek_button_t.ek_fill
          ∧ (er_get s ⟨y / 2, hc⟩).steps ≤ x)
      ∨ (s.shared.active_button ⟨y / 2, hc⟩ = ek_button_t.ek_rotation
          ∧ (er_get s ⟨y / 2, hc⟩).steps ≤ x)) :
    handler_ek_grid_key s x y z = some (s, []) := by
  rw [handler_even s x y z hz hy hc, edit_channel_rejected s _ x hrej]

/-- The scenario of C8: column 20 with `steps = 8` and `fill` selected. -/
theorem C8_rejected_edit_noop_witness :
    (er_get demo_state 1).steps = 8
      ∧ demo_state.shared.active_button 1 = ek_button_t.ek_fill
      ∧ handler_ek_grid_key demo_state 20 2 1 = some (demo_state, []) :=
  ⟨by decide, by decide,
   C8_rejected_edit_noop demo_state 20 2 1 (by decide) (by decide) (by decide)
     (Or.inr (Or.inl (by decide)))⟩

/-- C9: for every press on an odd row `y`, the affected channel is `y div 2`;
columns 0-2 set that channel's active parameter to `steps`, 4-6 to `fill`,
8-10 to `rotation`, each with exactly one re-render; every other column is a
no-op without re-render; in every case the pattern data and the other
channels' selections are unchanged. The zone cases are for rows that belong
to one of the `ER_COUNT` channels. -/
theorem C9_selector_press (s : State) (x y z : Nat) (hz : z ≠ 0) (hy : y % 2 = 1) :
    (¬ (x ≤ 2 ∨ (4 ≤ x ∧ x ≤ 6) ∨ (8 ≤ x ∧ x ≤ 10)) →
        handler_ek_grid_key s x y z = some (s, []))
      ∧ ∀ hc : y / 2 < ER_COUNT,
          (x ≤ 2 →
            ∃ s1, handler_ek_grid_key s x y z = some (s1, [Effect.refresh_grid])
              ∧ selection_changed s s1 ⟨y / 2, hc⟩ ek_button_t.ek_steps)
          ∧ (4 ≤ x ∧ x ≤ 6 →
            ∃ s1, handler_ek_grid_key s x y z = some (s1, [Effect.refresh_grid])
              ∧ selection_changed s s1 ⟨y / 2, hc⟩ ek_button_t.ek_fill)
          ∧ (8 ≤ x ∧ x ≤ 10 →
            ∃ s1, handler_ek_grid_key s x y z = some (s1, [Effect.refresh_grid])
              ∧ selection_changed s s1 ⟨y / 2, hc⟩ ek_button_t.ek_rotation) := by
  constructor
  · intro hx
    have h1 : ¬ x ≤ 2 := fun h => hx (Or.inl h)
    have h2 : ¬ (4 ≤ x ∧ x ≤ 6) := fun h => hx (Or.inr (Or.inl h))
    have h3 : ¬ (8 ≤ x ∧ x ≤ 10) := fun h => hx (Or.inr (Or.inr h))
    rw [handler_odd s x y z hy]
    simp only [grid_key_buttons, hz, hy, h1, h2, h3, ne_eq, not_false_eq_true, and_self,
      if_true, if_false]
  · intro hc
    have hrun := handler_odd s x y z hy
    rw [grid_key_buttons_odd s x y z hz hy hc] at hrun
    refine ⟨fun h1 => ?_, fun h2 => ?_, fun h3 => ?_⟩
    · rw [if_pos h1] at hrun
      exact ⟨_, hrun, selection_changed_button_set s _ _⟩
    · have h1 : ¬ x ≤ 2 := by omega
      rw [if_neg h1, if_pos h2] at hrun
      exact ⟨_, hrun, selection_changed_button_set s _ _⟩
    · have h1 : ¬ x ≤ 2 := by omega
      have h2 : ¬ (4 ≤ x ∧ x ≤ 6) := by omega
      rw [if_neg h1, if_neg h2, if_pos h3] at hrun
      exact ⟨_, hrun, selection_changed_button_set s _ _⟩

/-- The scenario of C9: column 5 in row 1 selects `fill` for channel 0 with
one re-render; column 3 in row 1 does nothing. -/
theorem C9_selector_press_witness :
    (∃ s1, handler_ek_grid_key demo_state 5 1 1 = some (s1, [Effect.refresh_grid])
        ∧ selection_changed demo_state s1 ⟨1 / 2, by decide⟩ ek_button_t.ek_fill)
      ∧ handler_ek_grid_key demo_state 3 1 1 = some (demo_state, []) :=
  ⟨((C9_selector_press demo_state 5 1 1 (by decide) (by decide)).2 (by decide)).2.1
      (by decide),
   (C9_selector_press demo_state 3 1 1 (by decide) (by decide)).1 (by decide)⟩

/-- C10: `render_grid` with a disconnected grid makes no call at all (neither
`clear_all_grid_leds` nor `set_grid_led`), and `render_grid` leaves the state
as it was whether or not the grid is connected. -/
theorem C10_render_disconnected (euclidean : Nat → Nat → Nat → Nat) (s : State) :
    render_grid euclidean false s = (s, [])
      ∧ ∀ connected : Bool, (render_grid euclidean connected s).1 = s := by
  refine ⟨rfl, fun connected => ?_⟩
  cases connected <;> rfl

/-! ## The LED calls of render_grid -/

theorem last_set_led_append (a b : List Effect) (x y : Nat) :
    last_set_led (a ++ b) x y = (last_set_led b x y).or (last_set_led a x y) := by
  induction a with
  | nil => simp [last_set_led]
  | cons e a ih =>
    have hcons : ∀ l : List Effect,
        last_set_led (e :: l) x y = (last_set_led l x y).or (set_led_call e x y) :=
      fun _ => rfl
    rw [List.cons_append, hcons, hcons, ih]
    cases last_set_led b x y <;> cases last_set_led a x y <;> simp

/-- A trace without a call in row `y` leaves nothing at the LEDs of that row. -/
theorem last_set_led_other_row (tr : List Effect) (x y : Nat)
    (h : ∀ x1 y1 b, Effect.set_grid_led x1 y1 b ∈ tr → y1 ≠ y) :
    last_set_led tr x y = none := by
  induction tr with
  | nil => rfl
  | cons e tr ih =>
    have htr : last_set_led tr x y = none :=
      ih (fun x1 y1 b hm => h x1 y1 b (List.mem_cons_of_mem _ hm))
    simp only [last_set_led, htr, Option.none_or]
    cases e with
    | set_grid_led x1 y1 b =>
      have hy : y1 ≠ y := h x1 y1 b (List.mem_cons_self _ _)
      simp [set_led_call, hy]
    | _ => rfl

/-- A strip of `n` LEDs of row `y`, all set to `v`. -/
theorem last_set_led_strip (n y v x : Nat) :
    last_set_led ((List.range n).map fun j => Effect.set_grid_led j y v) x y
      = if x < n then some v else none := by
  induction n with
  | zero => simp [last_set_led]
  | succ n ih =>
    rw [List.range_succ, List.map_append, last_set_led_append, ih]
    by_cases hx : n = x
    · subst hx; simp [last_set_led, set_led_call]
    · have h1 : last_set_led [Effect.set_grid_led n y v] x y = none := by
        simp [last_set_led, set_led_call, hx]
      have h2 : x < n + 1 ↔ x < n := by omega
      simp only [List.map_cons, List.map_nil, h1, Option.none_or, h2]

theorem grid_filled_rect_3_1 (x y b : Nat) :
    grid_filled_rect x y 3 1 b
      = [Effect.set_grid_led (x + 0) (y + 0) b, Effect.set_grid_led (x + 1) (y + 0) b,
         Effect.set_grid_led (x + 2) (y + 0) b] := rfl

/-- The calls of one channel, with the selector rectangles written out. -/
theorem render_channel_eq (euclidean : Nat → Nat → Nat → Nat) (s : State) (i : Fin ER_COUNT) :
    render_channel euclidean s i
      = ((List.range (er_get s i).steps).map fun j =>
            Effect.set_grid_led j (i.val * 2)
              (if euclidean (er_get s i).fill (er_get s i).steps
                    (((er_get s i).index + (er_get s i).rotation) % (er_get s i).steps) % 256 ≠ 0
               then GRID_LED_MEDIUM else GRID_LED_LOW))
        ++ ([Effect.set_grid_led (er_get s i).index (i.val * 2) GRID_LED_HIGH]
        ++ (grid_filled_rect 0 (i.val * 2 + 1) 3 1
              (if s.shared.active_button i = ek_button_t.ek_steps
               then GRID_LED_MEDIUM else GRID_LED_LOW)
        ++ (grid_filled_rect 4 (i.val * 2 + 1) 3 1
              (if s.shared.active_button i = ek_button_t.ek_fill
               then GRID_LED_MEDIUM else GRID_LED_LOW)
        ++ grid_filled_rect 4 (i.val * 2 + 1) 3 1
              (if s.shared.active_button i = ek_button_t.ek_rotation
               then GRID_LED_MEDIUM else GRID_LED_LOW)))) := by
  simp only [render_channel, List.append_assoc]

/-- Channel `k` only writes in rows `2 * k` and `2 * k + 1`. -/
theorem render_channel_rows (euclidean : Nat → Nat → Nat → Nat) (s : State) (k : Fin ER_COUNT)
    (x1 y1 b : Nat) (h : Effect.set_grid_led x1 y1 b ∈ render_channel euclidean s k) :
    y1 = k.val * 2 ∨ y1 = k.val * 2 + 1 := by
  rw [render_channel_eq] at h
  simp only [grid_filled_rect_3_1, List.mem_append, List.mem_map, List.mem_cons,
    List.mem_singleton, Effect.set_grid_led.injEq, List.mem_nil_iff, or_false,
    List.not_mem_nil] at h
  rcases h with ⟨j, -, -, hy, -⟩ | ⟨-, hy, -⟩ | h
  · exact Or.inl hy.symm
  · exact Or.inl hy
  · right
    rcases h with h | h | h
    all_goals (rcases h with ⟨-, hy, -⟩ | ⟨-, hy, -⟩ | ⟨-, hy, -⟩ <;> omega)

theorem last_set_led_cons (e : Effect) (l : List Effect) (x y : Nat) :
    last_set_led (e :: l) x y = (last_set_led l x y).or (set_led_call e x y) := rfl

/-- Channels other than `i` leave nothing in the two rows of channel `i`. -/
theorem render_others_row (euclidean : Nat → Nat → Nat → Nat) (s : State) (i : Fin ER_COUNT)
    (x y : Nat) (hy : y = i.val * 2 ∨ y = i.val * 2 + 1) :
    ∀ l : List (Fin ER_COUNT), i ∉ l →
      last_set_led (l.flatMap (render_channel euclidean s)) x y = none := by
  intro l hl
  apply last_set_led_other_row
  intro x1 y1 b hm
  rw [List.mem_flatMap] at hm
  obtain ⟨k, hk, hm⟩ := hm
  have hki : k ≠ i := fun h => hl (h ▸ hk)
  have hval : k.val ≠ i.val := fun h => hki (Fin.ext h)
  rcases render_channel_rows euclidean s k x1 y1 b hm with h | h <;> rcases hy with hy | hy <;>
    omega

/-- In the two rows of channel `i` only the calls of channel `i` count. -/
theorem render_flat_row (euclidean : Nat → Nat → Nat → Nat) (s : State) (i : Fin ER_COUNT)
    (x y : Nat) (hy : y = i.val * 2 ∨ y = i.val * 2 + 1) :
    ∀ l : List (Fin ER_COUNT), l.Nodup → i ∈ l →
      last_set_led (l.flatMap (render_channel euclidean s)) x y
        = last_set_led (render_channel euclidean s i) x y := by
  intro l
  induction l with
  | nil => intro _ h; simp at h
  | cons k rest ih =>
    intro hnd hmem
    have hk : k ∉ rest := (List.nodup_cons.mp hnd).1
    have hrest : rest.Nodup := (List.nodup_cons.mp hnd).2
    rw [List.flatMap_cons, last_set_led_append]
    by_cases hki : k = i
    · subst hki
      rw [render_others_row euclidean s k x y hy rest hk, Option.none_or]
    · have hin : i ∈ rest := by
        rcases List.mem_cons.mp hmem with h | h
        · exact absurd h.symm hki
        · exact h
      have hik : i ∉ [k] := by
        intro h
        exact hki (List.mem_singleton.mp h).symm
      have hnone : last_set_led (render_channel euclidean s k) x y = none := by
        have h := render_others_row euclidean s i x y hy [k] hik
        simpa using h
      rw [ih hrest hin, hnone, Option.or_none]

/-- What `render_grid` leaves in the two rows of channel `i` is what the calls
of channel `i` leave there. -/
theorem render_grid_row (euclidean : Nat → Nat → Nat → Nat) (s : State) (i : Fin ER_COUNT)
    (x y : Nat) (hy : y = i.val * 2 ∨ y = i.val * 2 + 1) :
    last_set_led (render_grid euclidean true s).2 x y
      = last_set_led (render_channel euclidean s i) x y := by
  show last_set_led (Effect.clear_all_grid_leds ::
      (List.finRange ER_COUNT).flatMap (render_channel euclidean s)) x y = _
  rw [last_set_led_cons, render_flat_row euclidean s i x y hy _ (List.nodup_finRange _)
    (List.mem_finRange i)]
  simp [set_led_call]

/-- The step strip of channel `i` after its calls: the index LED is high and
every other LED below `steps` has one and the same brightness, computed from
the position `(index + rotation) % steps`. -/
theorem render_channel_even (euclidean : Nat → Nat → Nat → Nat) (s : State) (i : Fin ER_COUNT)
    (x : Nat) :
    last_set_led (render_channel euclidean s i) x (i.val * 2)
      = if x = (er_get s i).index then some GRID_LED_HIGH
        else if x < (er_get s i).steps then
          some (if euclidean (er_get s i).fill (er_get s i).steps
                    (((er_get s i).index + (er_get s i).rotation) % (er_get s i).steps) % 256 ≠ 0
                then GRID_LED_MEDIUM else GRID_LED_LOW)
        else none := by
  rw [render_channel_eq, last_set_led_append, last_set_led_append, last_set_led_strip]
  have hrect : ∀ x0 b, last_set_led (grid_filled_rect x0 (i.val * 2 + 1) 3 1 b) x (i.val * 2)
      = none := by
    intro x0 b
    apply last_set_led_other_row
    intro x1 y1 b1 hm
    simp only [grid_filled_rect_3_1, List.mem_cons, Effect.set_grid_led.injEq,
      List.mem_singleton, List.not_mem_nil, or_false] at hm
    rcases hm with ⟨-, hy, -⟩ | ⟨-, hy, -⟩ | ⟨-, hy, -⟩ <;> omega
  rw [last_set_led_append, last_set_led_append, hrect, hrect, hrect]
  by_cases hx : x = (er_get s i).index
  · simp [last_set_led, set_led_call, hx]
  · have hx1 : ¬ (er_get s i).index = x := fun h => hx h.symm
    simp [last_set_led, set_led_call, hx, hx1]

/-- The selector strip of channel `i` after its calls: columns 0-2 show the
`steps` selection, columns 4-6 show the `rotation` selection, which is drawn
over the `fill` selection, and no other column is written. -/
theorem render_channel_odd (euclidean : Nat → Nat → Nat → Nat) (s : State) (i : Fin ER_COUNT)
    (x : Nat) :
    last_set_led (render_channel euclidean s i) x (i.val * 2 + 1)
      = if x ≤ 2 then
          some (if s.shared.active_button i = ek_button_t.ek_steps
                then GRID_LED_MEDIUM else GRID_LED_LOW)
        else if 4 ≤ x ∧ x ≤ 6 then
          some (if s.shared.active_button i = ek_button_t.ek_rotation
                then GRID_LED_MEDIUM else GRID_LED_LOW)
        else none := by
  rw [render_channel_eq, last_set_led_append, last_set_led_append, last_set_led_append,
    last_set_led_append]
  have hstrip : ∀ v, last_set_led ((List.range (er_get s i).steps).map fun j =>
      Effect.set_grid_led j (i.val * 2) v) x (i.val * 2 + 1) = none := by
    intro v
    apply last_set_led_other_row
    intro x1 y1 b1 hm
    simp only [List.mem_map, Effect.set_grid_led.injEq] at hm
    obtain ⟨j, -, -, hy, -⟩ := hm
    omega
  rw [hstrip]
  simp only [grid_filled_rect_3_1, last_set_led, set_led_call, Nat.add_zero, true_and,
    and_true, Option.none_or, Option.or_none]
  rcases Nat.lt_or_ge x 7 with h | h
  · interval_cases x <;> simp
  · have h0 : ¬ x ≤ 2 := by omega
    have h1 : ¬ (4 ≤ x ∧ x ≤ 6) := by omega
    have e0 : ¬ (0 = x) := by omega
    have e1 : ¬ (0 + 1 = x) := by omega
    have e2 : ¬ (0 + 2 = x) := by omega
    have e4 : ¬ (4 = x) := by omega
    have e5 : ¬ (4 + 1 = x) := by omega
    have e6 : ¬ (4 + 2 = x) := by omega
    simp [h0, h1, e0, e1, e2, e4, e5, e6]

/-- C11 (what the code does instead): with the grid connected, for every
channel `i` and every position `j < steps` other than the current index, the
brightness `render_grid` leaves at LED `(j, 2 * i)` is medium or low by the
truth of `euclidean(fill, steps, (index + rotation) mod steps)`: the position
of the playhead, the same for every `j`, and not `(j + rotation) mod steps`. -/
theorem C11_step_brightness_ignores_position (euclidean : Nat → Nat → Nat → Nat) (s : State)
    (i : Fin ER_COUNT) (j : Nat) (hj : j < (er_get s i).steps) (hne : j ≠ (er_get s i).index) :
    last_set_led (render_grid euclidean true s).2 j (i.val * 2)
      = some (if euclidean (er_get s i).fill (er_get s i).steps
                  (((er_get s i).index + (er_get s i).rotation) % (er_get s i).steps) % 256 ≠ 0
              then GRID_LED_MEDIUM else GRID_LED_LOW) := by
  rw [render_grid_row euclidean s i j (i.val * 2) (Or.inl rfl), render_channel_even]
  simp only [hne, hj, if_true, if_false]

/-- The failing input of C11: channel 0 of `demo_state` has `steps = 4`,
`fill = 3`, `rotation = 2`, `index = 3`. Position `(1 + 2) mod 4 = 3` is not
active, yet LED `(1, 0)` is left at medium. -/
theorem C11_step_brightness_ignores_position_witness :
    Control.euclidean (er_get demo_state 0).fill (er_get demo_state 0).steps
        ((1 + (er_get demo_state 0).rotation) % (er_get demo_state 0).steps) = 0
      ∧ last_set_led (render_grid Control.euclidean true demo_state).2 1 (0 * 2)
          = some GRID_LED_MEDIUM :=
  ⟨by decide,
   (C11_step_brightness_ignores_position Control.euclidean demo_state 0 1 (by decide)
      (by decide)).trans (by decide)⟩

/-- C12 (what the code does instead): with the grid connected, in the selector
strip of channel `i` (row `2 * i + 1`) `render_grid` leaves columns 0-2 at
medium exactly when `steps` is selected and columns 4-6 at medium exactly when
`rotation` is selected; the `fill` rectangle is drawn at columns 4-6 too and is
overwritten, and no other column, 8-10 included, is written. -/
theorem C12_selector_strip_two_zones (euclidean : Nat → Nat → Nat → Nat) (s : State)
    (i : Fin ER_COUNT) (x : Nat) :
    last_set_led (render_grid euclidean true s).2 x (i.val * 2 + 1)
      = if x ≤ 2 then
          some (if s.shared.active_button i = ek_button_t.ek_steps
                then GRID_LED_MEDIUM else GRID_LED_LOW)
        else if 4 ≤ x ∧ x ≤ 6 then
          some (if s.shared.active_button i = ek_button_t.ek_rotation
                then GRID_LED_MEDIUM else GRID_LED_LOW)
        else none := by
  rw [render_grid_row euclidean s i x (i.val * 2 + 1) (Or.inr rfl), render_channel_odd]

/-- The failing inputs of C12: channel 1 of `demo_state` has `fill` selected
and its columns 4-6 are left at low; channel 2 has `rotation` selected and its
columns 8-10 are not written, the selection showing at columns 4-6. -/
theorem C12_selector_strip_two_zones_witness :
    demo_state.shared.active_button 1 = ek_button_t.ek_fill
      ∧ last_set_led (render_grid demo_euclidean true demo_state).2 5 (1 * 2 + 1)
          = some GRID_LED_LOW
      ∧ demo_state.shared.active_button 2 = ek_button_t.ek_rotation
      ∧ last_set_led (render_grid demo_euclidean true demo_state).2 9 (2 * 2 + 1) = none
      ∧ last_set_led (render_grid demo_euclidean true demo_state).2 5 (2 * 2 + 1)
          = some GRID_LED_MEDIUM :=
  ⟨by decide,
   (C12_selector_strip_two_zones demo_euclidean demo_state 1 5).trans (by decide),
   by decide,
   (C12_selector_strip_two_zones demo_euclidean demo_state 2 9).trans (by decide),
   (C12_selector_strip_two_zones demo_euclidean demo_state 2 5).trans (by decide)⟩

/-- C13: with the grid connected, for every channel `i` the brightness
`render_grid` leaves at LED `(index, 2 * i)` is high, whatever the activity of
that step and whatever is drawn for the other channels and the selector
strips; `index < steps` is not needed for it. -/
theorem C13_index_led_high (euclidean : Nat → Nat → Nat → Nat) (s : State) (i : Fin ER_COUNT) :
    last_set_led (render_grid euclidean true s).2 (er_get s i).index (i.val * 2)
      = some GRID_LED_HIGH := by
  rw [render_grid_row euclidean s i _ (i.val * 2) (Or.inl rfl), render_channel_even]
  simp

/-- C14: the only reaction of `process_timed_event` to a timed-event id `c`
is a gate-off for channel `c`: for `c` in 0..3 exactly one `set_gate(c, 0)`
and nothing else, for any other id nothing; the state is unchanged and no
re-render is requested. The same holds through `process_event`. -/
theorem C14_timed_event_gate_off (euclidean : Nat → Nat → Nat → Nat) (s : State) (c : Nat)
    (rest : List Nat) :
    process_timed_event s c = (s, if c < 4 then [Effect.set_gate c 0] else [])
      ∧ process_event euclidean s event_t.TIMED_EVENT (c :: rest)
          = some (s, if c < 4 then [Effect.set_gate c 0] else []) := by
  have h : process_timed_event s c = (s, if c < 4 then [Effect.set_gate c 0] else []) := by
    unfold process_timed_event
    by_cases hc : c < 4
    · simp [GATE_OFF_TIMER, hc]
    · simp [GATE_OFF_TIMER, hc]
  refine ⟨h, ?_⟩
  simp only [process_event, List.getElem?_cons_zero, h]

/-- C16: release events are ignored: for every `(x, y)`,
`handler_ek_grid_key(x, y, 0)` leaves the whole state (pattern data and
selection) unchanged and requests no re-render, also when it is reached
through `process_event`. -/
theorem C16_release_ignored (euclidean : Nat → Nat → Nat → Nat) (s : State) (x y : Nat)
    (rest : List Nat) :
    handler_ek_grid_key s x y 0 = some (s, [])
      ∧ process_event euclidean s event_t.GRID_KEY_PRESSED (x :: y :: 0 :: rest)
          = some (s, []) := by
  refine ⟨handler_release s x y, ?_⟩
  simp only [process_event, List.getElem?_cons_zero, List.getElem?_cons_succ,
    handler_release s x y]

/-! ## Gate calls of the events -/

theorem gate_scan_append (a b : List Effect) :
    ∀ pending, gate_scan pending a = true →
      gate_scan pending (a ++ b) = gate_scan none b := by
  induction a with
  | nil =>
    intro pending h
    cases pending with
    | none => rfl
    | some c => simp [gate_scan] at h
  | cons e a ih =>
    intro pending h
    cases pending with
    | none =>
      cases e with
      | set_gate c level =>
        simp only [List.cons_append, gate_scan] at h ⊢
        split
        · next hl => rw [if_pos hl] at h; exact ih _ h
        · next hl => rw [if_neg hl] at h; exact ih _ h
      | add_timed_event id delay rep => simp [gate_scan] at h
      | refresh_grid => simp only [List.cons_append, gate_scan] at h ⊢; exact ih _ h
      | clear_all_grid_leds => simp only [List.cons_append, gate_scan] at h ⊢; exact ih _ h
      | set_grid_led x y v => simp only [List.cons_append, gate_scan] at h ⊢; exact ih _ h
    | some c =>
      cases e with
      | add_timed_event id delay rep =>
        simp only [List.cons_append, gate_scan, Bool.and_eq_true] at h
        have hrest := ih none h.2
        simp only [List.cons_append, gate_scan, h.1.1.1, h.1.1.2, h.1.2, Bool.true_and]
        exact hrest
      | set_gate c1 level => simp [gate_scan] at h
      | refresh_grid => simp [gate_scan] at h
      | clear_all_grid_leds => simp [gate_scan] at h
      | set_grid_led x y v => simp [gate_scan] at h

/-- The gate calls of one channel pair the gate-on with its schedule call and
have no gate-off. -/
theorem gate_effects_scan (euclidean : Nat → Nat → Nat → Nat) (e : ek_er_t) (i : Nat) :
    gate_scan none (gate_effects euclidean e i) = true
      ∧ ∀ c, Effect.set_gate c 0 ∉ gate_effects euclidean e i := by
  unfold gate_effects
  split
  · exact ⟨by simp [gate_scan], fun c => by simp⟩
  · exact ⟨rfl, fun c => by simp⟩

theorem clock_channel_some (euclidean : Nat → Nat → Nat → Nat) (s s1 : State)
    (i : Fin ER_COUNT) (t : List Effect) (h : clock_channel euclidean s i = some (s1, t)) :
    (er_get s i).steps ≠ 0 ∧ s1 = er_set s i (tick_er (er_get s i))
      ∧ t = gate_effects euclidean (er_get s i) i.val := by
  by_cases h0 : (er_get s i).steps = 0
  · rw [clock_channel_none euclidean s i h0] at h
    exact absurd h (by simp)
  · rw [clock_channel_eq euclidean s i h0] at h
    simp only [Option.some.injEq, Prod.mk.injEq] at h
    exact ⟨h0, h.1.symm, h.2.symm⟩

/-- The calls of the channel loop of a tick, whenever the loop is defined. -/
theorem for_channels_clock_trace (euclidean : Nat → Nat → Nat → Nat) :
    ∀ (l : List (Fin ER_COUNT)) (s s1 : State) (tr : List Effect),
      for_channels (clock_channel euclidean) l s = some (s1, tr) →
      ∀ tail, gate_scan none (tr ++ tail) = gate_scan none tail
        ∧ ∀ c, Effect.set_gate c 0 ∉ tr := by
  intro l
  induction l with
  | nil =>
    intro s s1 tr h tail
    simp only [for_channels, Option.some.injEq, Prod.mk.injEq] at h
    rw [← h.2]
    exact ⟨rfl, fun c => by simp⟩
  | cons i rest ih =>
    intro s s1 tr h tail
    simp only [for_channels] at h
    cases hb : clock_channel euclidean s i with
    | none => rw [hb] at h; exact absurd h (by simp)
    | some r =>
      obtain ⟨sa, ta⟩ := r
      simp only [hb] at h
      cases hr : for_channels (clock_channel euclidean) rest sa with
      | none => simp only [hr] at h; exact absurd h (by simp)
      | some r2 =>
        obtain ⟨sb, tb⟩ := r2
        simp only [hr, Option.some.injEq, Prod.mk.injEq] at h
        obtain ⟨-, -, hta⟩ := clock_channel_some euclidean s sa i ta hb
        obtain ⟨hscan, hoff⟩ := gate_effects_scan euclidean (er_get s i) i.val
        rw [← h.2, hta]
        constructor
        · rw [List.append_assoc, gate_scan_append _ _ none hscan]
          exact (ih sa sb tb hr tail).1
        · intro c hm
          rcases List.mem_append.mp hm with hm | hm
          · exact hoff c hm
          · exact (ih sa sb tb hr []).2 c hm

theorem process_timed_event_eq (s : State) (c : Nat) :
    process_timed_event s c = (s, if c < 4 then [Effect.set_gate c 0] else []) := by
  unfold process_timed_event
  by_cases hc : c < 4
  · simp [GATE_OFF_TIMER, hc]
  · simp [GATE_OFF_TIMER, hc]

/-- A trace of re-render requests only has no gate call at all. -/
theorem refresh_only_scan (tr : List Effect) (h : ∀ e ∈ tr, e = Effect.refresh_grid) :
    gate_scan none tr = true ∧ ∀ c level, Effect.set_gate c level ∉ tr := by
  induction tr with
  | nil => exact ⟨rfl, fun c level => by simp⟩
  | cons e tr ih =>
    have he : e = Effect.refresh_grid := h e (List.mem_cons_self _ _)
    obtain ⟨h1, h2⟩ := ih (fun e1 hm => h e1 (List.mem_cons_of_mem _ hm))
    subst he
    refine ⟨by simpa [gate_scan] using h1, fun c level hm => ?_⟩
    rcases List.mem_cons.mp hm with hm | hm
    · exact absurd hm (by simp)
    · exact h2 c level hm

theorem select_button_trace (s s1 : State) (k : Nat) (b : ek_button_t) (t : List Effect)
    (h : select_button s k b = some (s1, t)) : t = [Effect.refresh_grid] := by
  unfold select_button at h
  split at h
  · simp only [Option.some.injEq, Prod.mk.injEq] at h
    exact h.2.symm
  · exact absurd h (by simp)

theorem grid_key_buttons_trace (s s1 : State) (x y z : Nat) (t : List Effect)
    (h : grid_key_buttons s x y z = some (s1, t)) : ∀ e ∈ t, e = Effect.refresh_grid := by
  have hsel : ∀ k b, select_button s k b = some (s1, t) → ∀ e ∈ t, e = Effect.refresh_grid := by
    intro k b hk e he
    rw [select_button_trace s s1 k b t hk] at he
    exact List.mem_singleton.mp he
  have hnil : some (s, ([] : List Effect)) = some (s1, t) → ∀ e ∈ t, e = Effect.refresh_grid := by
    intro hk e he
    simp only [Option.some.injEq, Prod.mk.injEq] at hk
    rw [← hk.2] at he
    exact absurd he (by simp)
  unfold grid_key_buttons at h
  split at h
  · split at h
    · exact hsel _ _ h
    · split at h
      · exact hsel _ _ h
      · split at h
        · exact hsel _ _ h
        · exact hnil h
  · exact hnil h

theorem edit_channel_trace (s : State) (c : Fin ER_COUNT) (x : Nat) :
    ∀ e ∈ (edit_channel s c x).2, e = Effect.refresh_grid := by
  unfold edit_channel
  simp only
  split
  · intro e he; exact List.mem_singleton.mp he
  · split
    · intro e he; exact List.mem_singleton.mp he
    · split
      · intro e he; exact List.mem_singleton.mp he
      · intro e he; exact absurd he (by simp)

theorem grid_key_steps_trace (s s1 : State) (x y z : Nat) (t : List Effect)
    (h : grid_key_steps s x y z = some (s1, t)) : ∀ e ∈ t, e = Effect.refresh_grid := by
  unfold grid_key_steps at h
  split at h
  · simp only at h
    split at h
    · next hc =>
      simp only [Option.some.injEq] at h
      have ht := edit_channel_trace s ⟨y / 2 % 256, hc⟩ x
      rw [h] at ht
      exact ht
    · exact absurd h (by simp)
  · simp only [Option.some.injEq, Prod.mk.injEq] at h
    rw [← h.2]
    intro e he
    exact absurd he (by simp)

/-- A grid key event requests re-renders and makes no other call. -/
theorem handler_trace_refresh (s s1 : State) (x y z : Nat) (tr : List Effect)
    (h : handler_ek_grid_key s x y z = some (s1, tr)) : ∀ e ∈ tr, e = Effect.refresh_grid := by
  unfold handler_ek_grid_key at h
  cases hb : grid_key_buttons s x y z with
  | none => simp only [hb] at h; exact absurd h (by simp)
  | some r =>
    obtain ⟨sa, ta⟩ := r
    simp only [hb] at h
    cases hr : grid_key_steps sa x y z with
    | none => simp only [hr] at h; exact absurd h (by simp)
    | some r2 =>
      obtain ⟨sb, tb⟩ := r2
      simp only [hr, Option.some.injEq, Prod.mk.injEq] at h
      rw [← h.2]
      intro e he
      rcases List.mem_append.mp he with he | he
      · exact grid_key_buttons_trace s sa x y z ta hb e he
      · exact grid_key_steps_trace sa sb x y z tb hr e he

/-- The calls of a single event have no spurious gate-off. -/
theorem process_event_no_spurious (euclidean : Nat → Nat → Nat → Nat) (s s1 : State)
    (event : event_t) (data : List Nat) (tr : List Effect)
    (h : process_event euclidean s event data = some (s1, tr)) :
    no_spurious_gate_off (event, data) tr := by
  have hnil : ∀ sa : State, some (sa, ([] : List Effect)) = some (s1, tr) →
      no_spurious_gate_off (event, data) tr := by
    intro sa hk
    simp only [Option.some.injEq, Prod.mk.injEq] at hk
    rw [← hk.2]
    exact ⟨fun c hm => absurd hm (by simp), rfl⟩
  cases event with
  | MAIN_CLOCK_RECEIVED =>
    match data, h with
    | [], h => simp [process_event] at h
    | [_], h => simp [process_event] at h
    | d0 :: d1 :: rest, h =>
      simp only [process_event, List.getElem?_cons_zero, List.getElem?_cons_succ,
        event_main_clock] at h
      split at h
      · unfold external_clock_received at h
        cases hr : for_channels (clock_channel euclidean) (List.finRange ER_COUNT) s with
        | none => simp only [hr] at h; exact absurd h (by simp)
        | some r =>
          obtain ⟨sa, ta⟩ := r
          simp only [hr, Option.some.injEq, Prod.mk.injEq] at h
          obtain ⟨hscan, hoff⟩ := for_channels_clock_trace euclidean _ s sa ta hr
            [Effect.refresh_grid]
          rw [← h.2]
          refine ⟨fun c hm => ?_, ?_⟩
          · rcases List.mem_append.mp hm with hm | hm
            · exact absurd hm (hoff c)
            · exact absurd hm (by simp)
          · show gate_scan none (ta ++ [Effect.refresh_grid]) = true
            rw [hscan]; rfl
      · exact hnil s h
  | GRID_KEY_PRESSED =>
    match data, h with
    | [], h => simp [process_event] at h
    | [_], h => simp [process_event] at h
    | [_, _], h => simp [process_event] at h
    | d0 :: d1 :: d2 :: rest, h =>
      simp only [process_event, List.getElem?_cons_zero, List.getElem?_cons_succ] at h
      obtain ⟨hscan, hoff⟩ := refresh_only_scan tr (handler_trace_refresh s s1 d0 d1 d2 tr h)
      exact ⟨fun c hm => absurd hm (hoff c 0), hscan⟩
  | TIMED_EVENT =>
    match data, h with
    | [], h => simp [process_event] at h
    | d0 :: rest, h =>
      simp only [process_event, List.getElem?_cons_zero, process_timed_event_eq,
        Option.some.injEq, Prod.mk.injEq] at h
      rw [← h.2]
      by_cases hd : d0 < 4
      · simp only [hd, if_true]
        refine ⟨fun c hm => ?_, by simp [gate_ons_scheduled, gate_scan]⟩
        have hc : c = d0 := by simpa using hm
        subst hc
        exact ⟨rfl, by simp [GATE_OFF_TIMER], hd⟩
      · simp only [hd, if_false]
        exact ⟨fun c hm => absurd hm (by simp), rfl⟩
  | MAIN_CLOCK_SWITCHED => exact hnil s h
  | GATE_RECEIVED => exact hnil s h
  | GRID_CONNECTED => exact hnil s h
  | GRID_KEY_HELD => exact hnil s h
  | ARC_ENCODER_COARSE => exact hnil s h
  | FRONT_BUTTON_PRESSED => exact hnil s h
  | FRONT_BUTTON_HELD => exact hnil s h
  | BUTTON_PRESSED => exact hnil s h
  | I2C_RECEIVED => exact hnil s h
  | other code => exact hnil s h

/-- C15: no spurious gate-off. Over every sequence of events fed to
`process_event`, a gate-off `set_gate(c, 0)` is emitted only while handling a
timed event whose id is the one a gate-on of channel `c` schedules,
`GATE_OFF_TIMER + c`; no clock tick, grid key event or other event kind emits
a gate-off; and every gate-on is immediately followed by exactly one
`add_timed_event(GATE_OFF_TIMER + c, FIXED_GATE_LENGTH, 0)`, with no other
schedule call. -/
theorem C15_no_spurious_gate_off (euclidean : Nat → Nat → Nat → Nat) :
    ∀ (evs : List (event_t × List Nat)) (s : State) (log : List (List Effect)),
      (process_events euclidean evs s).map Prod.snd = some log →
      List.Forall₂ no_spurious_gate_off evs log := by
  intro evs
  induction evs with
  | nil =>
    intro s log h
    simp only [process_events, Option.map_some', Option.some.injEq] at h
    rw [← h]
    exact List.Forall₂.nil
  | cons e rest ih =>
    intro s log h
    obtain ⟨event, data⟩ := e
    simp only [process_events] at h
    cases hp : process_event euclidean s event data with
    | none => simp only [hp] at h; exact absurd h (by simp)
    | some r =>
      obtain ⟨sa, ta⟩ := r
      simp only [hp] at h
      cases hr : process_events euclidean rest sa with
      | none => simp only [hr] at h; exact absurd h (by simp)
      | some r2 =>
        obtain ⟨sb, tb⟩ := r2
        simp only [hr, Option.map_some', Option.some.injEq] at h
        rw [← h]
        exact List.Forall₂.cons (process_event_no_spurious euclidean s sa event data ta hp)
          (ih sa tb (by rw [hr]; rfl))

/-- A run with a tick that opens gate 0, the gate-off timer of channel 0, a
timer id of no channel and a selector press. -/
theorem C15_no_spurious_gate_off_witness :
    List.Forall₂ no_spurious_gate_off
      [(event_t.MAIN_CLOCK_RECEIVED, [1, 1]), (event_t.TIMED_EVENT, [0]),
       (event_t.TIMED_EVENT, [7]), (event_t.GRID_KEY_PRESSED, [5, 1, 1])]
      [[Effect.set_gate 0 1, Effect.add_timed_event 0 5 0, Effect.refresh_grid],
       [Effect.set_gate 0 0], [], [Effect.refresh_grid]] :=
  C15_no_spurious_gate_off demo_euclidean _ demo_state _ (by decide)

/-! ## The range of steps -/

/-- An edit leaves every `steps` as it was or, for a column above 0, stores
the `u8` value of `x + 1`. -/
theorem edit_channel_steps_field (s : State) (c : Fin ER_COUNT) (x : Nat) (j : Fin ER_COUNT) :
    (er_get (edit_channel s c x).1 j).steps = (er_get s j).steps
      ∨ (0 < x ∧ (er_get (edit_channel s c x).1 j).steps = (x + 1) % 256) := by
  unfold edit_channel
  simp only
  by_cases hj : j = c
  · subst hj
    split
    · next h =>
      right
      refine ⟨h.2, ?_⟩
      split <;> simp
    · split
      · left; simp
      · split
        · left; simp
        · left; rfl
  · left
    split
    · split <;> simp [hj]
    · split
      · simp [hj]
      · split
        · simp [hj]
        · rfl

/-- A grid key event on a row of a channel is defined, and it leaves every
`steps` as it was or stores the `u8` value of `x + 1`, for `x > 0`. -/
theorem handler_steps_field (s : State) (x y z : Nat) (hc : y / 2 < ER_COUNT) :
    ∃ s1 tr, handler_ek_grid_key s x y z = some (s1, tr)
      ∧ ∀ j, (er_get s1 j).steps = (er_get s j).steps
          ∨ (0 < x ∧ (er_get s1 j).steps = (x + 1) % 256) := by
  by_cases hz : z = 0
  · subst hz
    exact ⟨s, [], handler_release s x y, fun j => Or.inl rfl⟩
  rcases Nat.mod_two_eq_zero_or_one y with hy | hy
  · exact ⟨_, _, handler_even s x y z hz hy hc, edit_channel_steps_field s _ x⟩
  · have hrun := handler_odd s x y z hy
    rw [grid_key_buttons_odd s x y z hz hy hc] at hrun
    split at hrun
    · exact ⟨_, _, hrun, fun j => Or.inl rfl⟩
    · split at hrun
      · exact ⟨_, _, hrun, fun j => Or.inl rfl⟩
      · split at hrun
        · exact ⟨_, _, hrun, fun j => Or.inl rfl⟩
        · exact ⟨_, _, hrun, fun j => Or.inl rfl⟩

/-- An event with its payload, on a state without a zero `steps` and, for a
grid key event, on a row of a channel, is defined; it leaves every `steps` as
it was, except that a grid key event with column `x > 0` can store the `u8`
value of `x + 1`. -/
theorem process_event_steps_field (euclidean : Nat → Nat → Nat → Nat) (s : State)
    (event : event_t) (data : List Nat)
    (hs : ∀ j, (er_get s j).steps ≠ 0)
    (hlen : payload_length event ≤ data.length)
    (hrow : event = event_t.GRID_KEY_PRESSED → data.getD 1 0 / 2 < ER_COUNT) :
    ∃ s1 tr, process_event euclidean s event data = some (s1, tr)
      ∧ ∀ j, (er_get s1 j).steps = (er_get s j).steps
          ∨ (event = event_t.GRID_KEY_PRESSED ∧ 0 < data.getD 0 0
              ∧ (er_get s1 j).steps = (data.getD 0 0 + 1) % 256) := by
  cases event with
  | MAIN_CLOCK_RECEIVED =>
    match data, hlen with
    | d0 :: d1 :: rest, _ =>
      by_cases hand : Nat.land d0 d1 ≠ 0
      · obtain ⟨s1, hrun, -, -, her, -⟩ := external_clock_received_eq euclidean s hs
        have hrun1 : process_event euclidean s event_t.MAIN_CLOCK_RECEIVED (d0 :: d1 :: rest)
            = external_clock_received euclidean s := by
          simp only [process_event, List.getElem?_cons_zero, List.getElem?_cons_succ,
            event_main_clock]
          rw [if_pos hand]
        rw [hrun] at hrun1
        exact ⟨s1, _, hrun1, fun j => Or.inl (by rw [her j]; rfl)⟩
      · refine ⟨s, [], ?_, fun j => Or.inl rfl⟩
        simp only [process_event, List.getElem?_cons_zero, List.getElem?_cons_succ,
          event_main_clock]
        rw [if_neg hand]
  | GRID_KEY_PRESSED =>
    match data, hlen, hrow with
    | d0 :: d1 :: d2 :: rest, _, hrow =>
      obtain ⟨s1, tr, hrun, h⟩ := handler_steps_field s d0 d1 d2 (hrow rfl)
      refine ⟨s1, tr, ?_, fun j => ?_⟩
      · simp only [process_event, List.getElem?_cons_zero, List.getElem?_cons_succ, hrun]
      · rcases h j with h | ⟨hx, h⟩
        · exact Or.inl h
        · exact Or.inr ⟨rfl, hx, h⟩
  | TIMED_EVENT =>
    match data, hlen with
    | d0 :: rest, _ =>
      refine ⟨(process_timed_event s d0).1, (process_timed_event s d0).2, ?_, fun j => ?_⟩
      · simp only [process_event, List.getElem?_cons_zero]
      · left; rw [process_timed_event_state]
  | MAIN_CLOCK_SWITCHED => exact ⟨s, [], rfl, fun j => Or.inl rfl⟩
  | GATE_RECEIVED => exact ⟨s, [], rfl, fun j => Or.inl rfl⟩
  | GRID_CONNECTED => exact ⟨s, [], rfl, fun j => Or.inl rfl⟩
  | GRID_KEY_HELD => exact ⟨s, [], rfl, fun j => Or.inl rfl⟩
  | ARC_ENCODER_COARSE => exact ⟨s, [], rfl, fun j => Or.inl rfl⟩
  | FRONT_BUTTON_PRESSED => exact ⟨s, [], rfl, fun j => Or.inl rfl⟩
  | FRONT_BUTTON_HELD => exact ⟨s, [], rfl, fun j => Or.inl rfl⟩
  | BUTTON_PRESSED => exact ⟨s, [], rfl, fun j => Or.inl rfl⟩
  | I2C_RECEIVED => exact ⟨s, [], rfl, fun j => Or.inl rfl⟩
  | other code => exact ⟨s, [], rfl, fun j => Or.inl rfl⟩

/-- After `init_presets` with at least one preset every channel of every
pattern has `steps = 16`. -/
theorem init_presets_steps (preset_count : Nat) (s : State) (h : 0 < preset_count)
    (j : Fin ER_COUNT) : (er_get (init_presets preset_count s) j).steps = 16 := by
  obtain ⟨n, rfl⟩ : ∃ n, preset_count = n + 1 := ⟨preset_count - 1, by omega⟩
  simp only [er_get, init_presets, Function.iterate_succ_apply']
  rfl

/-- C17 (as stated) fails: every channel of `demo_state` has `steps` within
1..16, and the press `(20, 0, 1)` on the step strip of channel 0, which has
`steps` selected, stores `steps = 21`. -/
theorem C17_counterexample :
    (∀ j : Fin ER_COUNT, 1 ≤ (er_get demo_state j).steps ∧ (er_get demo_state j).steps ≤ 16)
      ∧ (process_event demo_euclidean demo_state event_t.GRID_KEY_PRESSED [20, 0, 1]).map
          (fun r => (er_get r.1 0).steps) = some 21
      ∧ ¬ ((21 : Nat) ≤ 16) := by
  decide

/-- C17 (amended): if `1 <= steps <= 16` holds for every channel, as after
`init_presets` with at least one preset, which sets `steps = 16`, it still
holds after any event handled by `process_event`, for every grid key press
`(x, y, pressed)` with column `x <= 15` on a row of a channel; the event is
defined on such a state. -/
theorem C17_steps_within_grid_width (euclidean : Nat → Nat → Nat → Nat) (s : State)
    (event : event_t) (data : List Nat)
    (hinv : ∀ j, 1 ≤ (er_get s j).steps ∧ (er_get s j).steps ≤ 16)
    (hev : event_in_range 16 event data) :
    (∃ s1 tr, process_event euclidean s event data = some (s1, tr)
        ∧ ∀ j, 1 ≤ (er_get s1 j).steps ∧ (er_get s1 j).steps ≤ 16)
      ∧ ∀ (preset_count : Nat) (s0 : State), 0 < preset_count →
          ∀ j, 1 ≤ (er_get (init_presets preset_count s0) j).steps
            ∧ (er_get (init_presets preset_count s0) j).steps ≤ 16 := by
  constructor
  · obtain ⟨s1, tr, hrun, h⟩ := process_event_steps_field euclidean s event data
      (fun j => by have := (hinv j).1; omega) hev.1 (fun he => (hev.2 he).2)
    refine ⟨s1, tr, hrun, fun j => ?_⟩
    rcases h j with h | ⟨he, hx0, h⟩
    · rw [h]; exact hinv j
    · have hx : data.getD 0 0 < 16 := (hev.2 he).1
      rw [h]
      omega
  · intro preset_count s0 hp j
    rw [init_presets_steps preset_count s0 hp j]
    omega

theorem C17_steps_within_grid_width_witness :
    (∃ s1 tr, process_event demo_euclidean demo_state event_t.GRID_KEY_PRESSED [15, 0, 1]
          = some (s1, tr)
        ∧ ∀ j, 1 ≤ (er_get s1 j).steps ∧ (er_get s1 j).steps ≤ 16)
      ∧ ∀ (preset_count : Nat) (s0 : State), 0 < preset_count →
          ∀ j, 1 ≤ (er_get (init_presets preset_count s0) j).steps
            ∧ (er_get (init_presets preset_count s0) j).steps ≤ 16 :=
  C17_steps_within_grid_width demo_euclidean demo_state event_t.GRID_KEY_PRESSED [15, 0, 1]
    (by decide) (by decide)

/-- C19 (as stated) fails: every channel of `demo_state` has `steps >= 1`; the
press `(255, 0, 1)` on the step strip of channel 0 stores the `u8` value of
`255 + 1`, which is 0, and the clock tick that follows takes a remainder by
that `steps`, which is undefined. -/
theorem C19_counterexample :
    (∀ j : Fin ER_COUNT, 1 ≤ (er_get demo_state j).steps)
      ∧ (process_events demo_euclidean [(event_t.GRID_KEY_PRESSED, [255, 0, 1])]
            demo_state).map (fun r => (er_get r.1 0).steps) = some 0
      ∧ (process_events demo_euclidean
            [(event_t.GRID_KEY_PRESSED, [255, 0, 1]), (event_t.MAIN_CLOCK_RECEIVED, [1, 1])]
            demo_state).isNone = true := by
  decide

/-- C19 (amended): starting from any state where every channel has
`steps >= 1`, after any sequence of events handled by `process_event`, with
every grid key event on a row of a channel and with column `x < 255`, every
event of the sequence is defined, so no remainder by zero is taken, and every
channel still has `steps >= 1`. -/
theorem C19_steps_stay_positive (euclidean : Nat → Nat → Nat → Nat) :
    ∀ (evs : List (event_t × List Nat)) (s : State),
      (∀ j, 1 ≤ (er_get s j).steps) →
      (∀ e ∈ evs, event_in_range 255 e.1 e.2) →
      ∃ s1 log, process_events euclidean evs s = some (s1, log)
        ∧ ∀ j, 1 ≤ (er_get s1 j).steps := by
  intro evs
  induction evs with
  | nil => intro s hs _; exact ⟨s, [], rfl, hs⟩
  | cons e rest ih =>
    intro s hs hev
    obtain ⟨event, data⟩ := e
    have he : event_in_range 255 event data := hev (event, data) (List.mem_cons_self _ _)
    obtain ⟨s1, tr, hrun, h⟩ := process_event_steps_field euclidean s event data
      (fun j => by have := hs j; omega) he.1 (fun hk => (he.2 hk).2)
    have hs1 : ∀ j, 1 ≤ (er_get s1 j).steps := by
      intro j
      rcases h j with h | ⟨hk, hx0, h⟩
      · rw [h]; exact hs j
      · have hx : data.getD 0 0 < 255 := (he.2 hk).1
        rw [h]
        omega
    obtain ⟨s2, log, hrun2, h2⟩ := ih s1 hs1 (fun e1 hm => hev e1 (List.mem_cons_of_mem _ hm))
    refine ⟨s2, tr :: log, ?_, h2⟩
    simp only [process_events, hrun, hrun2]

theorem C19_steps_stay_positive_witness :
    ∃ s1 log, process_events demo_euclidean
        [(event_t.GRID_KEY_PRESSED, [254, 0, 1]), (event_t.MAIN_CLOCK_RECEIVED, [1, 1])]
        demo_state = some (s1, log)
      ∧ ∀ j, 1 ≤ (er_get s1 j).steps :=
  C19_steps_stay_positive demo_euclidean _ demo_state (by decide) (by decide)

/-- C20 (as stated) fails: for the press `(0, 8, 1)` the index derived from
the even row 8 is 4, and for the press `(0, 9, 1)` the index derived from the
odd row 9 is 4; neither is below `ER_COUNT`, and the handler indexes
`shared.active_button` past its end. -/
theorem C20_counterexample :
    8 / 2 % 256 = 4 ∧ (9 - 1) / 2 % 256 = 4 ∧ ¬ (4 < ER_COUNT)
      ∧ (handler_ek_grid_key demo_state 0 8 1).isNone = true
      ∧ (handler_ek_grid_key demo_state 0 9 1).isNone = true := by
  decide

/-- C20 (amended): for every grid key event `(x, y, z)` with row `y < 8`, the
channel index `handler_ek_grid_key` derives from the row, `(y - 1) / 2` for odd
rows and `y / 2` for even rows, is less than `ER_COUNT`, so every access to
`shared.active_button` and to the pattern's `er` array is within bounds: the
handler is defined. -/
theorem C20_channel_index_in_bounds (s : State) (x y z : Nat) (hy : y < 8) :
    (y - 1) / 2 % 256 < ER_COUNT ∧ y / 2 % 256 < ER_COUNT
      ∧ ∃ s1 tr, handler_ek_grid_key s x y z = some (s1, tr) := by
  have hc : y / 2 < ER_COUNT := by
    show y / 2 < 4
    omega
  obtain ⟨s1, tr, hrun, -⟩ := handler_steps_field s x y z hc
  refine ⟨?_, ?_, s1, tr, hrun⟩
  · show (y - 1) / 2 % 256 < 4
    omega
  · show y / 2 % 256 < 4
    omega

theorem C20_channel_index_in_bounds_witness :
    (7 - 1) / 2 % 256 < ER_COUNT ∧ 7 / 2 % 256 < ER_COUNT
      ∧ ∃ s1 tr, handler_ek_grid_key demo_state 0 7 1 = some (s1, tr) :=
  C20_channel_index_in_bounds demo_state 0 7 1 (by decide)

/-! ## The Euclidean generator -/

theorem euclidean_ne_zero_iff (fill steps position : Nat) :
    euclidean fill steps position ≠ 0 ↔ ∃ i, i < fill ∧ i * steps / fill = position := by
  unfold euclidean
  split <;> simp_all

/-- With `fill <= steps` the placement moves on by at least one position from
one active step to the next. -/
theorem placement_step (fill steps i : Nat) (hfill : fill ≤ steps) (hpos : 0 < fill) :
    i * steps / fill + 1 ≤ (i + 1) * steps / fill := by
  have h1 : i * steps / fill + 1 = (i * steps + fill) / fill := (Nat.add_div_right _ hpos).symm
  rw [h1]
  apply Nat.div_le_div_right
  rw [Nat.add_mul, Nat.one_mul]
  omega

theorem placement_strict (fill steps i j : Nat) (hfill : fill ≤ steps) (hpos : 0 < fill)
    (hij : i < j) : i * steps / fill < j * steps / fill := by
  have h1 := placement_step fill steps i hfill hpos
  have h2 : (i + 1) * steps / fill ≤ j * steps / fill :=
    Nat.div_le_div_right (Nat.mul_le_mul_right _ hij)
  omega

theorem placement_injOn (fill steps : Nat) (hfill : fill ≤ steps) :
    Set.InjOn (fun i => i * steps / fill) (Finset.range fill : Set Nat) := by
  intro a ha b hb hab
  have ha1 : a < fill := Finset.mem_range.mp ha
  have hpos : 0 < fill := by omega
  simp only at hab
  rcases Nat.lt_trichotomy a b with h | h | h
  · have := placement_strict fill steps a b hfill hpos h; omega
  · exact h
  · have := placement_strict fill steps b a hfill hpos h; omega

/-- The active positions below `steps` are the placement of `0..fill`. -/
theorem euclidean_active_set (fill steps : Nat) (hsteps : 0 < steps) :
    (Finset.range steps).filter (fun p => euclidean fill steps p ≠ 0)
      = (Finset.range fill).image (fun i => i * steps / fill) := by
  ext p
  simp only [Finset.mem_filter, Finset.mem_range, Finset.mem_image, euclidean_ne_zero_iff]
  constructor
  · rintro ⟨-, i, hi, h⟩
    exact ⟨i, hi, h⟩
  · rintro ⟨i, hi, h⟩
    refine ⟨?_, i, hi, h⟩
    rw [← h]
    apply Nat.div_lt_of_lt_mul
    exact Nat.mul_lt_mul_of_lt_of_le hi (le_refl _) hsteps

/-- C18: for all `(fill, steps)` with `0 <= fill <= steps` and `steps > 0`,
whatever the bound `MAX_STEPS`, the Euclidean generator is true for exactly
`fill` of the positions `0..steps-1`; `fill = 0` gives no active position and
`fill = steps` gives all positions active. -/
theorem C18_euclidean_fill_count (fill steps : Nat) (hfill : fill ≤ steps) (hsteps : 0 < steps) :
    ((Finset.range steps).filter (fun p => euclidean fill steps p ≠ 0)).card = fill
      ∧ (∀ p, euclidean 0 steps p = 0)
      ∧ (∀ p, p < steps → euclidean steps steps p ≠ 0) := by
  refine ⟨?_, fun p => ?_, fun p hp => ?_⟩
  · rw [euclidean_active_set fill steps hsteps,
      Finset.card_image_of_injOn (placement_injOn fill steps hfill), Finset.card_range]
  · simp [euclidean]
  · rw [euclidean_ne_zero_iff]
    exact ⟨p, hp, Nat.mul_div_cancel p hsteps⟩

/-- The scenario `(fill, steps) = (3, 8)`: exactly 3 of the 8 positions are
active, and they are 0, 2 and 5. -/
theorem C18_euclidean_fill_count_witness :
    (((Finset.range 8).filter (fun p => euclidean 3 8 p ≠ 0)).card = 3
        ∧ (∀ p, euclidean 0 8 p = 0)
        ∧ (∀ p, p < 8 → euclidean 8 8 p ≠ 0))
      ∧ (List.range 8).map (euclidean 3 8) = [1, 0, 1, 0, 0, 1, 0, 0] :=
  ⟨C18_euclidean_fill_count 3 8 (by decide) (by decide), by decide⟩

end Control
